import Mathlib

/-!
Verification development for the E3 labeling engine
(`lib/e3_wire_numbering.py` and `lib/e3_device_designation.py`).

The Python code is shallowly embedded: strings are Lean `String`s.
Character classes follow Python: `str.isdigit` is Unicode-aware and also
accepts digit characters that `int()` rejects (the modeled universe is
ASCII plus the superscript/subscript digit block, which exhibits exactly
that split; see `pyIsDigit`), while `str.isalpha`/`str.strip`/
`str.lower` are modeled on ASCII, the alphabet of grid positions and
attribute values.  Python `None` is `Option`, the COM id types are `Nat`, and
schematic coordinates are `Int` (only their ordering is ever used by the
code).  Python's `list.sort` is specified to be a stable sort, and a
stable sort's output is uniquely determined by the comparison key, so it
is embedded as `List.insertionSort` with the corresponding total
preorder (Mathlib's `insertionSort` is stable in exactly the same way).
Python `dict`s preserve key-insertion order; the `defaultdict(list)`
grouping idiom is embedded as an association list with ordered append
(`mdAdd`/`mdGet` below).
-/

namespace E3

/-- Numeric value of a run of decimal digit characters, exactly as
Python's `int` computes it on an all-digit string (`natOfDigits [] = 0`
is never produced by `int` itself; callers guard the empty case). -/
def natOfDigits (l : List Char) : Nat :=
  l.foldl (fun a c => a * 10 + (c.toNat - 48)) 0

/-- Python's `int(s)` on a candidate digit run: it succeeds exactly on a
nonempty run of ASCII decimal digits and raises (modeled by `none`)
otherwise — in particular on a run containing a non-decadic digit
character such as U+00B2, which `str.isdigit` lets into the run. -/
def pyInt (l : List Char) : Option Nat :=
  if l ≠ [] ∧ l.all (·.isDigit) then some (natOfDigits l) else none

/-- Python's `str.strip()` at the ASCII level: drop leading and trailing
whitespace characters. -/
def pyStrip (l : List Char) : List Char :=
  ((l.dropWhile Char.isWhitespace).reverse.dropWhile Char.isWhitespace).reverse

/-- The last component of Python's `s.split(".")`: the maximal suffix of
`s` containing no dot (equal to `s` itself when `s` has no dot). -/
def afterLastDot (l : List Char) : List Char :=
  (l.reverse.takeWhile (· ≠ '.')).reverse

/-- Python's `str.lower()` at the ASCII level, character by character. -/
def pyLower (l : List Char) : List Char := l.map Char.toLower

/-- Python string comparison (`<` on `str`): lexicographic by code point. -/
def listCharLt : List Char → List Char → Bool
  | _, [] => false
  | [], _ :: _ => true
  | a :: as, b :: bs => if a < b then true else if b < a then false else listCharLt as bs

/-- The sort-key tuple returned by `WireNumberAssigner.wire_number_sort_key`:
`(page_num, grid_leading_alpha, grid_num, grid_trailing_alpha)`. -/
abbrev SKey := Nat × List Char × Nat × List Char

/-- Python's `<` on `int`, as a boolean. -/
def natLtB (a b : Nat) : Bool := decide (a < b)

/-- One component of Python's tuple comparison: strictly smaller wins,
strictly larger loses, equal components defer to the rest. -/
def lexStep {α : Type} (ltA : α → α → Bool) (a1 a2 : α) (rest : Bool) : Bool :=
  if ltA a1 a2 then true else if ltA a2 a1 then false else rest

/-- Python's `<` on two sort-key tuples (elementwise lexicographic
comparison, ints numerically and strings by code point). -/
def keyLt (k1 k2 : SKey) : Bool :=
  lexStep natLtB k1.1 k2.1
    (lexStep listCharLt k1.2.1 k2.2.1
      (lexStep natLtB k1.2.2.1 k2.2.2.1
        (listCharLt k1.2.2.2 k2.2.2.2)))

/-- Key ordering actually used by Python's ascending stable sort: `a` may
stay before `b` iff `b`'s key is not strictly below `a`'s. -/
def keyLe (k1 k2 : SKey) : Bool := !(keyLt k2 k1)

/-- The non-decadic digit characters of the modeled character universe:
the superscript and subscript digits U+00B2, U+00B3, U+00B9, U+2070,
U+2074-U+2079 and U+2080-U+2089.  Python's `str.isdigit()` accepts them
(they carry the Unicode digit property) but `int()` raises a
`ValueError` on them. -/
def isNonDecimalDigit (c : Char) : Bool :=
  c.toNat = 0xB2 || c.toNat = 0xB3 || c.toNat = 0xB9 || c.toNat = 0x2070 ||
    (0x2074 ≤ c.toNat && c.toNat ≤ 0x2079) || (0x2080 ≤ c.toNat && c.toNat ≤ 0x2089)

/-- Python's Unicode-aware `str.isdigit()` on the modeled character
universe: true on ASCII decimal digits and on the digit characters that
`int()` cannot parse.  (Further Unicode decimal classes — e.g. the
Arabic-Indic digits, which both `isdigit` and `int()` accept — are
outside the modeled universe.) -/
def pyIsDigit (c : Char) : Bool := c.isDigit || isNonDecimalDigit c

/-- The `try`-body of `wire_number_sort_key` (lines 146-194 of
`e3_wire_numbering.py`): scan the maximal leading `isdigit` run as the
page, then split the remainder into leading alpha run, `isdigit` run,
and raw remainder.  The `int` conversions are the only operations of the
body that can raise; they are threaded through `Option` and genuinely
fail when a scanned digit run contains a non-decadic digit character. -/
def wire_number_sort_key_core (l : List Char) : Option SKey :=
  let page_part := l.takeWhile pyIsDigit
  let grid_part := l.dropWhile pyIsDigit
  (if page_part = [] then some 0 else pyInt page_part).bind fun page_num =>
    let grid_leading_alpha := grid_part.takeWhile Char.isAlpha
    let rest := grid_part.dropWhile Char.isAlpha
    let grid_num_part := rest.takeWhile pyIsDigit
    let grid_trailing_alpha := rest.dropWhile pyIsDigit
    (if grid_num_part = [] then some 0 else pyInt grid_num_part).map fun grid_num =>
      (page_num, grid_leading_alpha, grid_num, grid_trailing_alpha)

/-- The sentinel tuple `(999999, 'ZZZ', 999999, wire_num)` returned by the
`except` handler of `wire_number_sort_key`. -/
def sentinelKey (l : List Char) : SKey := (999999, ['Z', 'Z', 'Z'], 999999, l)

/-- `WireNumberAssigner.wire_number_sort_key`: the parsed 4-tuple, falling
back to the maximal sentinel if the body raises. -/
def wire_number_sort_key (s : String) : SKey :=
  (wire_number_sort_key_core s.data).getD (sentinelKey s.data)

/-- `WireNumberAssigner.calculate_wire_number`: the page defaults to `"0"`
when empty or blank and is stripped otherwise; the result is the page
concatenated directly with the grid position. -/
def calculate_wire_number (page_number grid_position : String) : String :=
  if page_number = "" ∨ pyStrip page_number.data = [] then ⟨'0' :: grid_position.data⟩
  else ⟨pyStrip page_number.data ++ grid_position.data⟩

/-- `WireNumberAssigner.extract_grid_position`: grid from the descriptor's
last dot-separated component when a dot is present, else `column+row`,
else `column`, else `row`, else `"UNKNOWN"`. -/
def extract_grid_position (grid_desc column row : String) : String :=
  if grid_desc ≠ "" ∧ grid_desc.data.contains '.' then ⟨afterLastDot grid_desc.data⟩
  else if column ≠ "" ∧ row ≠ "" then column ++ row
  else if column ≠ "" then column
  else if row ≠ "" then row
  else "UNKNOWN"

/-- `DeviceDesignationManager.extract_grid_position`: empty descriptor
yields `""`; a descriptor containing a dot (i.e. splitting into at least
two parts) yields the part after the last dot; any other descriptor is
returned unchanged. -/
def extract_grid_position_device (grid_desc : String) : String :=
  if grid_desc = "" then ""
  else if grid_desc.data.contains '.' then ⟨afterLastDot grid_desc.data⟩
  else grid_desc

/-! ### Ordered multidict (Python `defaultdict(list)` / `dict` of lists)

Python dicts preserve key-insertion order: appending a value under an
existing key leaves the key where it is; a fresh key goes to the end. -/

/-- Append `v` under key `k`, preserving key-insertion order. -/
def mdAdd {α : Type} (m : List (String × List α)) (k : String) (v : α) :
    List (String × List α) :=
  match m with
  | [] => [(k, [v])]
  | (k', vs) :: rest => if k' = k then (k', vs ++ [v]) :: rest else (k', vs) :: mdAdd rest k v

/-- Look up the value list of key `k` (empty when absent). -/
def mdGet {α : Type} (m : List (String × List α)) (k : String) : List α :=
  match m with
  | [] => []
  | (k', vs) :: rest => if k' = k then vs else mdGet rest k

/-- Keys of the multidict in insertion order. -/
def mdKeys {α : Type} (m : List (String × List α)) : List String := m.map (·.1)

/-- Grouping loop: fold the input, appending every kept element under its
key, starting from accumulator `m`. -/
def groupFold {α : Type} (keyf : α → String) (keep : α → Bool)
    (m : List (String × List α)) (l : List α) : List (String × List α) :=
  l.foldl (fun acc x => if keep x then mdAdd acc (keyf x) x else acc) m

/-! ### Wire-numbering pipeline (`WireNumberAssigner.process_connections`) -/

/-- A resolved pin placement as returned by `get_pin_location_info`: sheet
page name, raw grid descriptor with column/row fallbacks, and schema x/y
coordinates.  Pins whose lookup failed (returned `None`s) never reach the
wire-data list and are not modeled. -/
structure PinLoc where
  page : String
  grid_desc : String
  column : String
  row : String
  x : Int
  y : Int
deriving DecidableEq

/-- A connection as the engine sees it: the `FixWireName` attribute value
of its net (`none` when the connection has no valid net or the attribute
is unset), its signal name (`""` models an empty/missing name), its
resolvable pin placements, and its net-segment ids. -/
structure Connection where
  connId : Nat
  fixWireName : Option String
  signalName : String
  pins : List PinLoc
  netSegmentIds : List Nat
deriving DecidableEq

/-- `WireNumberAssigner.has_fix_wire_name_attribute`: true iff the net's
attribute value is truthy and its stripped, lowercased form is not one of
`""`, `"0"`, `"false"`, `"no"`. -/
def has_fix_wire_name_attribute (c : Connection) : Bool :=
  match c.fixWireName with
  | none => false
  | some v =>
    !(v = "") && !((["", "0", "false", "no"] : List String).contains
      ⟨pyLower (pyStrip v.data)⟩)

/-- One entry of the `wire_data` list built by
`get_connection_wire_numbers_and_positions`: candidate wire number plus
the pin's coordinates. -/
structure WireDatum where
  wire_number : String
  x : Int
  y : Int
deriving DecidableEq

/-- `get_connection_wire_numbers_and_positions`: one candidate per
resolvable pin, in pin order. -/
def get_connection_wire_numbers_and_positions (c : Connection) : List WireDatum :=
  c.pins.map fun p =>
    ⟨calculate_wire_number p.page (extract_grid_position p.grid_desc p.column p.row), p.x, p.y⟩

/-- Candidate ordering used by `all_wire_data.sort(key=...)`. -/
def wdLe (a b : WireDatum) : Prop :=
  keyLe (wire_number_sort_key a.wire_number) (wire_number_sort_key b.wire_number) = true

instance : DecidableRel wdLe := fun _ _ => instDecidableEqBool _ _

/-- First pass of `process_connections`: group connections by signal name,
skipping connections with the `FixWireName` attribute set and connections
with an empty signal name. -/
def groupBySignal (conns : List Connection) : List (String × List Connection) :=
  groupFold (·.signalName)
    (fun c => !has_fix_wire_name_attribute c && !(c.signalName = "")) [] conns

/-- One entry of the `signal_data` list. -/
structure SignalInfo where
  signal_name : String
  base_wire_number : String
  x : Int
  y : Int
  net_segment_ids : List Nat
  connection_ids : List Nat
deriving DecidableEq

/-- Second pass of `process_connections`: per signal, gather all candidate
wire data and net segments over its connections; if any candidate exists,
stable-sort the candidates by sort key and keep the first (lowest) one as
the base wire number and tie-break coordinate.  `list(set(...))` is
embedded as `List.dedup` (the claims depend only on membership, not on
Python's set iteration order). -/
def signalBuild (g : String × List Connection) : Option SignalInfo :=
  if g.2.flatMap get_connection_wire_numbers_and_positions = [] then none
  else
    (List.insertionSort wdLe (g.2.flatMap get_connection_wire_numbers_and_positions)).head?.map
      fun d =>
        ⟨g.1, d.wire_number, d.x, d.y, (g.2.flatMap Connection.netSegmentIds).dedup,
          g.2.map Connection.connId⟩

/-- All `signal_data` entries, one per signal group with a nonempty
candidate list. -/
def signalData (groups : List (String × List Connection)) : List SignalInfo :=
  groups.filterMap signalBuild

/-- Grouping of `signal_data` entries by base wire number. -/
def wire_number_groups (sd : List SignalInfo) : List (String × List SignalInfo) :=
  groupFold SignalInfo.base_wire_number (fun _ => true) [] sd

/-- Tie-break ordering of signals inside a conflict group:
`(x_coord, y_coord)` ascending, as a Python tuple comparison. -/
def sigLe (a b : SignalInfo) : Prop :=
  a.x < b.x ∨ (a.x = b.x ∧ a.y ≤ b.y)

instance : DecidableRel sigLe := fun _ _ => inferInstanceAs (Decidable (_ ∨ _))

/-- Suffix scheme of lines 448-454: index 0 keeps the base; index `i ≥ 1`
gets `base + "." + chr(ord('A') + i - 1)`. -/
def unique_wire_number (base : String) (i : Nat) : String :=
  if i = 0 then base else base ++ "." ++ String.singleton (Char.ofNat (64 + i))

/-- Assignment within one conflict group: sort by tie-break coordinates
(stable) and suffix by position. -/
def assignGroup (base : String) (sigs : List SignalInfo) : List (String × String) :=
  (List.insertionSort sigLe sigs).enum.map fun p => (p.2.signal_name, unique_wire_number base p.1)

/-- Third pass of `process_connections`: the final signal-name-to-label
assignment, group by group. -/
def process_connections (conns : List Connection) : List (String × String) :=
  (wire_number_groups (signalData (groupBySignal conns))).flatMap fun g =>
    assignGroup g.1 g.2

/-- Net segments whose `"Wire number"` attribute is written during the
run: every signal in `signal_data` is assigned a label and all its net
segments are written. -/
def writtenNetSegments (conns : List Connection) : List Nat :=
  (signalData (groupBySignal conns)).flatMap SignalInfo.net_segment_ids

/-! ### Code-point level rendering of the suffix scheme

Python strings are sequences of Unicode code points and `chr` is
injective on its whole domain (including lone surrogates, which Lean's
`Char` cannot carry), so for the distinctness claim the labels produced
at lines 448-454 are rendered as code-point lists: `f"{base}.{letter}"`
is `base ++ [46 (the dot), 65 + i - 1]`. -/
def unique_wire_number_codes (base : List Nat) (i : Nat) : List Nat :=
  if i = 0 then base else base ++ [46, 64 + i]

/-- The full list of labels a conflict group of size `n` receives, at the
code-point level. -/
def group_suffix_labels (base : List Nat) (n : Nat) : List (List Nat) :=
  (List.range n).map (unique_wire_number_codes base)

/-! ### Device-designation pipeline (`DeviceDesignationManager.process_devices`) -/

/-- A device (or cable) as the engine sees it.  `terminalQuery` is the
result of the `IsTerminal()`/`IsTerminalBlock()` API pair, `none` when
those calls raise.  `letterCode` is the value `get_device_letter_code`
returns (that helper catches its own exceptions, so it is total).
`sheet`/`grid`/`firstSymbolId` are the data of `get_first_symbol_info`,
with Python's falsy `None` results encoded as `""`/`0` exactly as the
truthiness test `if sheet and grid and first_symbol_id` treats them. -/
structure Device where
  deviceId : Nat
  terminalQuery : Option (Bool × Bool)
  letterCode : String
  isCable : Bool
  sheet : String
  grid : String
  firstSymbolId : Nat
deriving DecidableEq

/-- Fallback terminal letter codes of `is_terminal_device`. -/
def terminal_codes : List String := ["T", "TB", "X", "XT", "TERM"]

/-- `DeviceDesignationManager.is_terminal_device`: the capability query
when it succeeds, else the letter-code fallback. -/
def is_terminal_device (d : Device) : Bool :=
  match d.terminalQuery with
  | some q => q.1 || q.2
  | none => terminal_codes.contains d.letterCode

/-- Python's `f"{n:03d}"` for a nonnegative counter. -/
def pad3 (n : Nat) : String :=
  let s := toString n
  ⟨List.replicate (3 - s.length) '0' ++ s.data⟩

/-- `DeviceDesignationManager.generate_device_designation`:
`{letter_code}{sheet}{grid}` with no separators. -/
def generate_device_designation (letter_code sheet grid : String) : String :=
  letter_code ++ sheet ++ grid

/-- One step of the second loop of `process_devices`: a cable gets the
sequential designation `letterCode + counter` (and bumps the counter); a
regular device with a resolvable placement gets
`generate_device_designation`; other devices are counted as "without
symbols" and produce nothing.  The accumulator is
`(cable_counter, designations)`. -/
def designationStep (acc : Nat × List (String × List Nat)) (d : Device) :
    Nat × List (String × List Nat) :=
  if d.isCable then
    (acc.1 + 1, mdAdd acc.2 (d.letterCode ++ pad3 acc.1) d.deviceId)
  else if d.sheet ≠ "" ∧ d.grid ≠ "" ∧ d.firstSymbolId ≠ 0 then
    (acc.1, mdAdd acc.2 (generate_device_designation d.letterCode d.sheet d.grid) d.deviceId)
  else acc

/-- The `designations` dict after the second loop of `process_devices`,
built over the non-terminal devices with the cable counter starting at 1. -/
def collect_designations (ds : List Device) : List (String × List Nat) :=
  (ds.foldl designationStep (1, [])).2

/-- Conflict resolution for one designation group
(`assign_suffix_for_conflicts`): a singleton group keeps its base; larger
groups are sorted by device id (the sort key `lambda x: x[0]` of
line 305 is the device id; the collected x-position is not part of the
key) and suffixed by position with the same scheme as wire numbers. -/
def group_final_designations (base : String) (ids : List Nat) : List (Nat × String) :=
  match ids with
  | [i] => [(i, base)]
  | ids =>
    (List.insertionSort (fun a b : Nat => a ≤ b) ids).enum.map fun p =>
      (p.2, unique_wire_number base p.1)

/-- `DeviceDesignationManager.assign_suffix_for_conflicts` over the whole
designations dict. -/
def assign_suffix_for_conflicts (desig : List (String × List Nat)) : List (Nat × String) :=
  desig.flatMap fun g => group_final_designations g.1 g.2

/-- `DeviceDesignationManager.process_devices`: skip terminal devices,
collect designations for the rest, resolve conflicts.  The result is the
device-id-to-final-designation assignment that `update_device_designation`
then writes. -/
def process_devices (ds : List Device) : List (Nat × String) :=
  assign_suffix_for_conflicts (collect_designations (ds.filter fun d => !is_terminal_device d))

/-! ### Multidict lemmas -/

theorem mdKeys_nil {α : Type} : mdKeys ([] : List (String × List α)) = [] := rfl

theorem mdKeys_cons {α : Type} (k : String) (vs : List α) (rest : List (String × List α)) :
    mdKeys ((k, vs) :: rest) = k :: mdKeys rest := rfl

theorem mdKeys_eq_map {α : Type} (m : List (String × List α)) : mdKeys m = m.map (·.1) := rfl

theorem mdGet_mdAdd {α : Type} (m : List (String × List α)) (k k' : String) (v : α) :
    mdGet (mdAdd m k v) k' = mdGet m k' ++ (if k = k' then [v] else []) := by
  induction m with
  | nil =>
    show mdGet [(k, [v])] k' = [] ++ _
    by_cases h : k = k'
    · simp [mdGet, h]
    · simp [mdGet, h]
  | cons p rest ih =>
    obtain ⟨k0, vs⟩ := p
    show mdGet (if k0 = k then (k0, vs ++ [v]) :: rest else (k0, vs) :: mdAdd rest k v) k' = _
    by_cases h0 : k0 = k
    · subst h0
      rw [if_pos rfl]
      by_cases h1 : k0 = k'
      · subst h1
        simp [mdGet]
      · simp [mdGet, h1]
    · rw [if_neg h0]
      by_cases h1 : k0 = k'
      · subst h1
        have : ¬ k = k0 := fun hh => h0 hh.symm
        simp [mdGet, this]
      · simp [mdGet, h1, ih]

theorem mdKeys_mdAdd {α : Type} (m : List (String × List α)) (k : String) (v : α) :
    mdKeys (mdAdd m k v) = if k ∈ mdKeys m then mdKeys m else mdKeys m ++ [k] := by
  induction m with
  | nil => simp [mdAdd, mdKeys]
  | cons p rest ih =>
    obtain ⟨k0, vs⟩ := p
    show mdKeys (if k0 = k then (k0, vs ++ [v]) :: rest else (k0, vs) :: mdAdd rest k v) = _
    by_cases h0 : k0 = k
    · subst h0
      rw [if_pos rfl, mdKeys_cons, mdKeys_cons, if_pos (List.mem_cons_self _ _)]
    · have hne : k ≠ k0 := fun hh => h0 hh.symm
      rw [if_neg h0, mdKeys_cons, mdKeys_cons, ih]
      by_cases hm : k ∈ mdKeys rest
      · rw [if_pos hm, if_pos (List.mem_cons_of_mem _ hm)]
      · rw [if_neg hm, if_neg (by simp [List.mem_cons, hne, hm]), List.cons_append]

theorem mdGet_eq_nil_of_not_mem {α : Type} (m : List (String × List α)) (k : String)
    (h : k ∉ mdKeys m) : mdGet m k = [] := by
  induction m with
  | nil => rfl
  | cons p rest ih =>
    obtain ⟨k0, vs⟩ := p
    rw [mdKeys_cons, List.mem_cons] at h
    push_neg at h
    show (if k0 = k then vs else mdGet rest k) = []
    rw [if_neg (fun hh => h.1 hh.symm)]
    exact ih h.2

theorem mem_of_mdGet_ne_nil {α : Type} (m : List (String × List α)) (k : String)
    (h : mdGet m k ≠ []) : (k, mdGet m k) ∈ m := by
  induction m with
  | nil => simp [mdGet] at h
  | cons p rest ih =>
    obtain ⟨k0, vs⟩ := p
    by_cases h0 : k0 = k
    · subst h0
      simp [mdGet] at h ⊢
    · have hg : mdGet ((k0, vs) :: rest) k = mdGet rest k := by
        show (if k0 = k then vs else mdGet rest k) = _
        rw [if_neg h0]
      rw [hg] at h ⊢
      exact List.mem_cons_of_mem _ (ih h)

theorem mdGet_of_mem {α : Type} (m : List (String × List α)) (k : String) (vs : List α)
    (hnd : (mdKeys m).Nodup) (h : (k, vs) ∈ m) : mdGet m k = vs := by
  induction m with
  | nil => simp at h
  | cons p rest ih =>
    obtain ⟨k0, vs0⟩ := p
    rw [mdKeys_cons, List.nodup_cons] at hnd
    rcases List.mem_cons.1 h with h1 | h1
    · rw [Prod.mk.injEq] at h1
      obtain ⟨hk, hv⟩ := h1
      subst hk
      subst hv
      show (if k = k then vs else mdGet rest k) = vs
      rw [if_pos rfl]
    · have hk0 : ¬ k0 = k := by
        intro hh
        subst hh
        refine hnd.1 ?_
        rw [mdKeys_eq_map]
        exact List.mem_map.2 ⟨(k0, vs), h1, rfl⟩
      show (if k0 = k then vs0 else mdGet rest k) = vs
      rw [if_neg hk0]
      exact ih hnd.2 h1

/-! ### groupFold lemmas -/

theorem groupFold_mdGet {α : Type} (keyf : α → String) (keep : α → Bool)
    (l : List α) (m : List (String × List α)) (k : String) :
    mdGet (groupFold keyf keep m l) k =
      mdGet m k ++ l.filter (fun x => keep x && (keyf x = k)) := by
  induction l generalizing m with
  | nil => simp [groupFold]
  | cons x rest ih =>
    simp only [groupFold, List.foldl_cons] at ih ⊢
    by_cases hx : keep x
    · rw [if_pos hx, ih, mdGet_mdAdd]
      by_cases hk : keyf x = k <;> simp [List.filter_cons, hx, hk]
    · rw [if_neg hx, ih]
      simp [List.filter_cons, hx]

theorem groupFold_mdKeys_nodup {α : Type} (keyf : α → String) (keep : α → Bool)
    (l : List α) (m : List (String × List α)) (hnd : (mdKeys m).Nodup) :
    (mdKeys (groupFold keyf keep m l)).Nodup := by
  induction l generalizing m with
  | nil => exact hnd
  | cons x rest ih =>
    simp only [groupFold, List.foldl_cons]
    by_cases hx : keep x
    · rw [if_pos hx]
      refine ih _ ?_
      rw [mdKeys_mdAdd]
      by_cases hm : keyf x ∈ mdKeys m
      · rwa [if_pos hm]
      · rw [if_neg hm, List.nodup_append]
        exact ⟨hnd, List.nodup_singleton _, by simpa using hm⟩
    · rw [if_neg hx]
      exact ih _ hnd

theorem groupFold_key_invariant {α : Type} (keyf : α → String) (keep : α → Bool)
    (P : String → Prop) (l : List α) (m : List (String × List α))
    (hm : ∀ k ∈ mdKeys m, P k) (hl : ∀ x ∈ l, keep x = true → P (keyf x)) :
    ∀ k ∈ mdKeys (groupFold keyf keep m l), P k := by
  induction l generalizing m with
  | nil => exact hm
  | cons x rest ih =>
    simp only [groupFold, List.foldl_cons]
    by_cases hx : keep x
    · rw [if_pos hx]
      refine ih _ ?_ fun y hy hk => hl y (List.mem_cons_of_mem _ hy) hk
      intro k hk
      rw [mdKeys_mdAdd] at hk
      by_cases hmem : keyf x ∈ mdKeys m
      · exact hm k (by rwa [if_pos hmem] at hk)
      · rw [if_neg hmem, List.mem_append, List.mem_singleton] at hk
        rcases hk with hk | hk
        · exact hm k hk
        · exact hk ▸ hl x (List.mem_cons_self x rest) hx
    · rw [if_neg hx]
      exact ih _ hm fun y hy hk => hl y (List.mem_cons_of_mem _ hy) hk

/-- Characterization of a group produced by `groupFold` from the empty
accumulator: its member list is exactly the kept elements carrying its
key, in input order. -/
theorem groupFold_mem_char {α : Type} (keyf : α → String) (keep : α → Bool)
    (l : List α) (k : String) (vs : List α)
    (h : (k, vs) ∈ groupFold keyf keep [] l) :
    vs = l.filter (fun x => keep x && (keyf x = k)) := by
  have hnd : (mdKeys (groupFold keyf keep [] l)).Nodup :=
    groupFold_mdKeys_nodup _ _ _ _ (by simp [mdKeys])
  have := mdGet_of_mem _ _ _ hnd h
  rw [← this, groupFold_mdGet]
  simp [mdGet]

/-- Conversely, any kept element's key names a group that is present. -/
theorem groupFold_mem_of_elem {α : Type} (keyf : α → String) (keep : α → Bool)
    (l : List α) (x : α) (hx : x ∈ l) (hkeep : keep x = true) :
    (keyf x, l.filter (fun y => keep y && (keyf y = keyf x))) ∈ groupFold keyf keep [] l := by
  have hget : mdGet (groupFold keyf keep [] l) (keyf x) =
      l.filter (fun y => keep y && (keyf y = keyf x)) := by
    rw [groupFold_mdGet]
    simp [mdGet]
  have hne : mdGet (groupFold keyf keep [] l) (keyf x) ≠ [] := by
    rw [hget]
    intro hc
    have : x ∈ l.filter (fun y => keep y && (keyf y = keyf x)) :=
      List.mem_filter.2 ⟨hx, by simp [hkeep]⟩
    simp [hc] at this
  have := mem_of_mdGet_ne_nil _ _ hne
  rwa [hget] at this

/-! ### Head of a stable sort

Python's `list.sort()` followed by taking index 0 selects the leftmost
minimal element under the key.  `leftmostMin` states that selection
directly; `head?_insertionSort` connects it to the sort. -/

/-- The first element of the list that is minimal under `r` (keeping the
earlier element on ties, as a stable ascending sort does). -/
def leftmostMin {α : Type} (r : α → α → Prop) [DecidableRel r] : List α → Option α
  | [] => none
  | a :: l =>
    match leftmostMin r l with
    | none => some a
    | some b => some (if r a b then a else b)

theorem head?_orderedInsert {α : Type} (r : α → α → Prop) [DecidableRel r]
    (a : α) (l : List α) :
    (List.orderedInsert r a l).head? =
      some (match l with | [] => a | b :: _ => if r a b then a else b) := by
  cases l with
  | nil => rfl
  | cons b rest =>
    show (if r a b then a :: b :: rest else b :: List.orderedInsert r a rest).head? = _
    by_cases h : r a b <;> simp [h]

theorem head?_insertionSort {α : Type} (r : α → α → Prop) [DecidableRel r] (l : List α) :
    (List.insertionSort r l).head? = leftmostMin r l := by
  induction l with
  | nil => rfl
  | cons a rest ih =>
    show (List.orderedInsert r a (List.insertionSort r rest)).head? = _
    rw [head?_orderedInsert]
    cases hs : List.insertionSort r rest with
    | nil =>
      have : rest = [] := by
        have := List.perm_insertionSort r rest
        rw [hs] at this
        exact this.symm.eq_nil
      subst this
      rfl
    | cons b tl =>
      have hb : leftmostMin r rest = some b := by
        rw [← ih, hs]
        rfl
      show some (if r a b then a else b) = leftmostMin r (a :: rest)
      rw [show leftmostMin r (a :: rest) =
        match leftmostMin r rest with
        | none => some a
        | some b => some (if r a b then a else b) from rfl, hb]

theorem leftmostMin_cons {α : Type} (r : α → α → Prop) [DecidableRel r] (a : α) (l : List α) :
    leftmostMin r (a :: l) =
      match leftmostMin r l with
      | none => some a
      | some b => some (if r a b then a else b) := rfl

theorem leftmostMin_spec {α : Type} (r : α → α → Prop) [DecidableRel r]
    (htot : ∀ a b, r a b ∨ r b a) (htrans : ∀ a b c, r a b → r b c → r a c)
    (l : List α) :
    ∀ m, leftmostMin r l = some m →
      ∃ i : Nat, l[i]? = some m ∧ (∀ b ∈ l, r m b) ∧
        ∀ (j : Nat) (x : α), j < i → l[j]? = some x → ¬ r x m := by
  have hrefl : ∀ x : α, r x x := fun x => (htot x x).elim id id
  induction l with
  | nil =>
    intro m h
    simp [leftmostMin] at h
  | cons a rest ih =>
    intro m h
    rw [leftmostMin_cons] at h
    cases hrest : leftmostMin r rest with
    | none =>
      rw [hrest] at h
      replace h : a = m := Option.some.inj h
      subst h
      have hrest_nil : rest = [] := by
        cases rest with
        | nil => rfl
        | cons c tl =>
          rw [leftmostMin_cons] at hrest
          rcases h' : leftmostMin r tl with _ | v <;> rw [h'] at hrest <;>
            exact Option.noConfusion hrest
      subst hrest_nil
      refine ⟨0, by simp, ?_, fun j x hj _ => absurd hj (by omega)⟩
      intro b hb
      rw [List.mem_singleton] at hb
      exact hb ▸ hrefl a
    | some b =>
      rw [hrest] at h
      replace h : (if r a b then a else b) = m := Option.some.inj h
      obtain ⟨i', hi', hmin', hfirst'⟩ := ih b hrest
      by_cases hab : r a b
      · rw [if_pos hab] at h
        subst h
        refine ⟨0, by simp, ?_, fun j x hj _ => absurd hj (by omega)⟩
        intro c hc
        rcases List.mem_cons.1 hc with hc | hc
        · exact hc ▸ hrefl a
        · exact htrans _ _ _ hab (hmin' c hc)
      · rw [if_neg hab] at h
        subst h
        refine ⟨i' + 1, by simpa using hi', ?_, ?_⟩
        · intro c hc
          rcases List.mem_cons.1 hc with hc | hc
          · exact hc ▸ ((htot a b).resolve_left hab)
          · exact hmin' c hc
        · intro j x hj hx
          cases j with
          | zero =>
            rw [List.getElem?_cons_zero] at hx
            replace hx : a = x := Option.some.inj hx
            exact hx ▸ hab
          | succ j' =>
            rw [List.getElem?_cons_succ] at hx
            exact hfirst' j' x (by omega) hx

/-! ### Properties of the Python comparison orders -/

theorem listCharLt_asymm (l1 l2 : List Char) (h : listCharLt l1 l2 = true) :
    listCharLt l2 l1 = false := by
  induction l1 generalizing l2 with
  | nil =>
    cases l2 with
    | nil => simp [listCharLt] at h
    | cons b bs => rfl
  | cons a as ih =>
    cases l2 with
    | nil => simp [listCharLt] at h
    | cons b bs =>
      simp only [listCharLt] at h ⊢
      rcases lt_trichotomy a b with hab | hab | hab
      · rw [if_neg (asymm hab), if_pos hab]
      · subst hab
        rw [if_neg (lt_irrefl a), if_neg (lt_irrefl a)] at h ⊢
        exact ih bs h
      · rw [if_neg (asymm hab), if_pos hab] at h
        exact absurd h (by simp)

theorem listCharLt_trans (l1 l2 l3 : List Char) (h1 : listCharLt l1 l2 = true)
    (h2 : listCharLt l2 l3 = true) : listCharLt l1 l3 = true := by
  induction l1 generalizing l2 l3 with
  | nil =>
    cases l3 with
    | nil =>
      cases l2 with
      | nil => simp [listCharLt] at h1
      | cons b bs => simp [listCharLt] at h2
    | cons c cs => rfl
  | cons a as ih =>
    cases l2 with
    | nil => simp [listCharLt] at h1
    | cons b bs =>
      cases l3 with
      | nil => simp [listCharLt] at h2
      | cons c cs =>
        simp only [listCharLt] at h1 h2 ⊢
        rcases lt_trichotomy a b with hab | hab | hab
        · rcases lt_trichotomy b c with hbc | hbc | hbc
          · rw [if_pos (lt_trans hab hbc)]
          · subst hbc
            rw [if_pos hab]
          · rw [if_neg (asymm hbc), if_pos hbc] at h2
            exact absurd h2 (by simp)
        · subst hab
          rcases lt_trichotomy a c with hac | hac | hac
          · rw [if_pos hac]
          · subst hac
            rw [if_neg (lt_irrefl a), if_neg (lt_irrefl a)] at h1 h2 ⊢
            exact ih bs cs h1 h2
          · rw [if_neg (asymm hac), if_pos hac] at h2
            exact absurd h2 (by simp)
        · rw [if_neg (asymm hab), if_pos hab] at h1
          exact absurd h1 (by simp)

theorem listCharLt_conn (l1 l2 : List Char) (h1 : listCharLt l1 l2 = false)
    (h2 : listCharLt l2 l1 = false) : l1 = l2 := by
  induction l1 generalizing l2 with
  | nil =>
    cases l2 with
    | nil => rfl
    | cons b bs => simp [listCharLt] at h1
  | cons a as ih =>
    cases l2 with
    | nil => simp [listCharLt] at h2
    | cons b bs =>
      simp only [listCharLt] at h1 h2
      rcases lt_trichotomy a b with hab | hab | hab
      · rw [if_pos hab] at h1
        exact absurd h1 (by simp)
      · subst hab
        rw [if_neg (lt_irrefl a), if_neg (lt_irrefl a)] at h1 h2
        rw [ih bs h1 h2]
      · rw [if_pos hab] at h2
        exact absurd h2 (by simp)

theorem listCharLt_irrefl (l : List Char) : listCharLt l l = false := by
  induction l with
  | nil => rfl
  | cons a as ih => simp [listCharLt, lt_irrefl, ih]

theorem natLtB_asymm (a b : Nat) (h : natLtB a b = true) : natLtB b a = false := by
  simp [natLtB] at h ⊢
  omega

theorem natLtB_trans (a b c : Nat) (h1 : natLtB a b = true) (h2 : natLtB b c = true) :
    natLtB a c = true := by
  simp [natLtB] at h1 h2 ⊢
  omega

theorem natLtB_conn (a b : Nat) (h1 : natLtB a b = false) (h2 : natLtB b a = false) :
    a = b := by
  simp [natLtB] at h1 h2
  omega

theorem lexStep_asymm {α : Type} (ltA : α → α → Bool)
    (hasymm : ∀ a b, ltA a b = true → ltA b a = false)
    (a1 a2 : α) (r12 r21 : Bool) (hrest : r12 = true → r21 = false)
    (h : lexStep ltA a1 a2 r12 = true) : lexStep ltA a2 a1 r21 = false := by
  unfold lexStep at h ⊢
  by_cases h1 : ltA a1 a2 = true
  · rw [if_neg (by simp [hasymm _ _ h1]), if_pos h1]
  · rw [if_neg h1] at h
    by_cases h2 : ltA a2 a1 = true
    · rw [if_pos h2] at h
      exact absurd h (by simp)
    · rw [if_neg h2] at h
      rw [if_neg h2, if_neg h1]
      exact hrest h

theorem lexStep_trans {α : Type} (ltA : α → α → Bool)
    (htrans : ∀ a b c, ltA a b = true → ltA b c = true → ltA a c = true)
    (hconn : ∀ a b, ltA a b = false → ltA b a = false → a = b)
    (a1 a2 a3 : α) (r12 r23 r13 : Bool)
    (hrest : r12 = true → r23 = true → r13 = true)
    (h1 : lexStep ltA a1 a2 r12 = true) (h2 : lexStep ltA a2 a3 r23 = true) :
    lexStep ltA a1 a3 r13 = true := by
  unfold lexStep at h1 h2 ⊢
  by_cases e12 : ltA a1 a2 = true
  · by_cases e23 : ltA a2 a3 = true
    · rw [if_pos (htrans _ _ _ e12 e23)]
    · rw [if_neg e23] at h2
      by_cases e32 : ltA a3 a2 = true
      · rw [if_pos e32] at h2
        exact absurd h2 (by simp)
      · have : a2 = a3 := hconn _ _ (by simpa using e23) (by simpa using e32)
        subst this
        rw [if_pos e12]
  · rw [if_neg e12] at h1
    by_cases e21 : ltA a2 a1 = true
    · rw [if_pos e21] at h1
      exact absurd h1 (by simp)
    · have : a1 = a2 := hconn _ _ (by simpa using e12) (by simpa using e21)
      subst this
      rw [if_neg e12] at h1
      by_cases e23 : ltA a1 a3 = true
      · rw [if_pos e23]
      · rw [if_neg e23] at h2 ⊢
        by_cases e32 : ltA a3 a1 = true
        · rw [if_pos e32] at h2
          exact absurd h2 (by simp)
        · rw [if_neg e32] at h2 ⊢
          exact hrest h1 h2

theorem lexStep_conn {α : Type} (ltA : α → α → Bool)
    (hconn : ∀ a b, ltA a b = false → ltA b a = false → a = b)
    (a1 a2 : α) (r12 r21 : Bool)
    (h1 : lexStep ltA a1 a2 r12 = false) (h2 : lexStep ltA a2 a1 r21 = false) :
    a1 = a2 ∧ r12 = false ∧ r21 = false := by
  unfold lexStep at h1 h2
  by_cases e12 : ltA a1 a2 = true
  · rw [if_pos e12] at h1
    exact absurd h1 (by simp)
  · by_cases e21 : ltA a2 a1 = true
    · rw [if_pos e21] at h2
      exact absurd h2 (by simp)
    · have heq : a1 = a2 := hconn _ _ (by simpa using e12) (by simpa using e21)
      rw [if_neg e12, if_neg e21] at h1
      rw [if_neg e21, if_neg e12] at h2
      exact ⟨heq, h1, h2⟩

theorem keyLt_asymm (k1 k2 : SKey) (h : keyLt k1 k2 = true) : keyLt k2 k1 = false := by
  unfold keyLt at h ⊢
  refine lexStep_asymm _ natLtB_asymm _ _ _ _ ?_ h
  intro h1
  refine lexStep_asymm _ listCharLt_asymm _ _ _ _ ?_ h1
  intro h2
  refine lexStep_asymm _ natLtB_asymm _ _ _ _ ?_ h2
  exact listCharLt_asymm _ _

theorem keyLt_trans (k1 k2 k3 : SKey) (h1 : keyLt k1 k2 = true) (h2 : keyLt k2 k3 = true) :
    keyLt k1 k3 = true := by
  unfold keyLt at h1 h2 ⊢
  refine lexStep_trans _ natLtB_trans natLtB_conn _ _ _ _ _ _ ?_ h1 h2
  intro g1 g2
  refine lexStep_trans _ listCharLt_trans listCharLt_conn _ _ _ _ _ _ ?_ g1 g2
  intro f1 f2
  refine lexStep_trans _ natLtB_trans natLtB_conn _ _ _ _ _ _ ?_ f1 f2
  exact listCharLt_trans _ _ _

theorem keyLt_conn (k1 k2 : SKey) (h1 : keyLt k1 k2 = false) (h2 : keyLt k2 k1 = false) :
    k1 = k2 := by
  unfold keyLt at h1 h2
  obtain ⟨e1, h1, h2⟩ := lexStep_conn _ natLtB_conn _ _ _ _ h1 h2
  obtain ⟨e2, h1, h2⟩ := lexStep_conn _ listCharLt_conn _ _ _ _ h1 h2
  obtain ⟨e3, h1, h2⟩ := lexStep_conn _ natLtB_conn _ _ _ _ h1 h2
  have e4 : k1.2.2.2 = k2.2.2.2 := listCharLt_conn _ _ h1 h2
  obtain ⟨p1, a1, n1, t1⟩ := k1
  obtain ⟨p2, a2, n2, t2⟩ := k2
  simp_all

theorem keyLe_total (k1 k2 : SKey) : keyLe k1 k2 = true ∨ keyLe k2 k1 = true := by
  unfold keyLe
  by_cases h : keyLt k2 k1 = true
  · right
    simp [keyLt_asymm _ _ h]
  · left
    simp [h]

theorem keyLe_iff (k1 k2 : SKey) : keyLe k1 k2 = true ↔ keyLt k2 k1 = false := by
  unfold keyLe
  cases keyLt k2 k1 <;> simp

theorem keyLe_trans (k1 k2 k3 : SKey) (h1 : keyLe k1 k2 = true) (h2 : keyLe k2 k3 = true) :
    keyLe k1 k3 = true := by
  rw [keyLe_iff] at h1 h2 ⊢
  by_cases h : keyLt k3 k1 = true
  · exfalso
    by_cases e : keyLt k1 k2 = true
    · exact absurd (keyLt_trans _ _ _ h e) (by simp [h2])
    · have heq : k1 = k2 := keyLt_conn _ _ (by simpa using e) h1
      rw [heq] at h
      exact absurd h (by simp [h2])
  · simpa using h


/-! ### Relation instances for the sorts used by the pipelines -/

instance : IsTotal WireDatum wdLe :=
  ⟨fun a b => keyLe_total (wire_number_sort_key a.wire_number) (wire_number_sort_key b.wire_number)⟩

instance : IsTrans WireDatum wdLe :=
  ⟨fun _ _ _ h1 h2 => keyLe_trans _ _ _ h1 h2⟩

instance : IsTotal SignalInfo sigLe := ⟨fun a b => by unfold sigLe; omega⟩

instance : IsTrans SignalInfo sigLe := ⟨fun a b c h1 h2 => by unfold sigLe at *; omega⟩

/-! ### Character-class and scanning helpers -/

theorem isAlpha_not_isDigit (c : Char) (h : c.isAlpha = true) : c.isDigit = false := by
  simp only [Char.isAlpha, Char.isUpper, Char.isLower, Char.isDigit, Bool.or_eq_true,
    Bool.and_eq_true, decide_eq_true_eq, Bool.and_eq_false_iff, decide_eq_false_iff_not,
    ge_iff_le, UInt32.le_def, BitVec.le_def,
    show ((48 : UInt32).toBitVec).toNat = 48 from rfl,
    show ((57 : UInt32).toBitVec).toNat = 57 from rfl,
    show ((65 : UInt32).toBitVec).toNat = 65 from rfl,
    show ((90 : UInt32).toBitVec).toNat = 90 from rfl,
    show ((97 : UInt32).toBitVec).toNat = 97 from rfl,
    show ((122 : UInt32).toBitVec).toNat = 122 from rfl] at *
  omega

theorem isDigit_not_isAlpha (c : Char) (h : c.isDigit = true) : c.isAlpha = false := by
  by_cases ha : c.isAlpha = true
  · rw [isAlpha_not_isDigit c ha] at h
    exact absurd h (by simp)
  · simpa using ha

theorem isDigit_not_isWhitespace (c : Char) (h : c.isDigit = true) : c.isWhitespace = false := by
  simp only [Char.isWhitespace, Bool.or_eq_false_iff, decide_eq_false_iff_not]
  refine ⟨⟨⟨?_, ?_⟩, ?_⟩, ?_⟩ <;> rintro rfl <;> simp [Char.isDigit] at h

theorem isDigit_not_isNonDecimalDigit (c : Char) (h : c.isDigit = true) :
    isNonDecimalDigit c = false := by
  simp only [isNonDecimalDigit, Char.toNat, UInt32.toNat, Char.isDigit, Bool.and_eq_true,
    Bool.or_eq_false_iff, Bool.and_eq_false_iff, decide_eq_true_eq, decide_eq_false_iff_not,
    not_le, UInt32.le_def, BitVec.le_def,
    show ((48 : UInt32).toBitVec).toNat = 48 from rfl,
    show ((57 : UInt32).toBitVec).toNat = 57 from rfl] at *
  omega

theorem isAlpha_not_isNonDecimalDigit (c : Char) (h : c.isAlpha = true) :
    isNonDecimalDigit c = false := by
  simp only [isNonDecimalDigit, Char.toNat, UInt32.toNat, Char.isAlpha, Char.isUpper,
    Char.isLower, Bool.or_eq_true, Bool.and_eq_true, Bool.or_eq_false_iff,
    Bool.and_eq_false_iff, decide_eq_true_eq, decide_eq_false_iff_not, not_le, ge_iff_le,
    UInt32.le_def, BitVec.le_def,
    show ((65 : UInt32).toBitVec).toNat = 65 from rfl,
    show ((90 : UInt32).toBitVec).toNat = 90 from rfl,
    show ((97 : UInt32).toBitVec).toNat = 97 from rfl,
    show ((122 : UInt32).toBitVec).toNat = 122 from rfl] at *
  omega

theorem pyIsDigit_of_isDigit (c : Char) (h : c.isDigit = true) : pyIsDigit c = true := by
  unfold pyIsDigit
  rw [h, Bool.true_or]

theorem isAlpha_not_pyIsDigit (c : Char) (h : c.isAlpha = true) : pyIsDigit c = false := by
  unfold pyIsDigit
  rw [isAlpha_not_isDigit c h, isAlpha_not_isNonDecimalDigit c h]
  rfl

theorem takeWhile_append_of_all (p : Char → Bool) (l1 l2 : List Char)
    (h : ∀ c ∈ l1, p c = true) :
    (l1 ++ l2).takeWhile p = l1 ++ l2.takeWhile p := by
  induction l1 with
  | nil => simp
  | cons c cs ih =>
    rw [List.cons_append, List.takeWhile_cons, if_pos (h c (List.mem_cons_self c cs)),
      ih fun d hd => h d (List.mem_cons_of_mem c hd), List.cons_append]

theorem dropWhile_append_of_all (p : Char → Bool) (l1 l2 : List Char)
    (h : ∀ c ∈ l1, p c = true) :
    (l1 ++ l2).dropWhile p = l2.dropWhile p := by
  induction l1 with
  | nil => simp
  | cons c cs ih =>
    rw [List.cons_append, List.dropWhile_cons, if_pos (h c (List.mem_cons_self c cs)),
      ih fun d hd => h d (List.mem_cons_of_mem c hd)]

theorem takeWhile_eq_nil_of_head (p : Char → Bool) (l : List Char)
    (h : ∀ c, l.head? = some c → p c = false) : l.takeWhile p = [] := by
  cases l with
  | nil => rfl
  | cons c cs => rw [List.takeWhile_cons, if_neg (by simp [h c rfl])]

theorem dropWhile_eq_self_of_head (p : Char → Bool) (l : List Char)
    (h : ∀ c, l.head? = some c → p c = false) : l.dropWhile p = l := by
  cases l with
  | nil => rfl
  | cons c cs => rw [List.dropWhile_cons, if_neg (by simp [h c rfl])]

theorem pyStrip_eq_self (l : List Char) (h : ∀ c ∈ l, c.isWhitespace = false) :
    pyStrip l = l := by
  unfold pyStrip
  rw [dropWhile_eq_self_of_head _ _ ?h1, dropWhile_eq_self_of_head _ _ ?h2, List.reverse_reverse]
  case h1 =>
    intro c hc
    have hmem := (List.mem_reverse).1 (List.mem_of_mem_head? hc)
    exact h c (List.Sublist.mem hmem (List.dropWhile_sublist _))
  case h2 =>
    intro c hc
    exact h c (List.mem_of_mem_head? hc)

/-! ### Evaluation of the sort key -/

/-- On a label free of non-decadic digit characters — in particular on
any ASCII label — the parsing body succeeds: every digit run the scans
produce is then a nonempty run of ASCII decimal digits, which `int`
accepts, so the key is the parsed 4-tuple with absent numeric
fragments defaulting to 0.  (Without the hypothesis this fails: on
`['²']` the page run is nonempty but `int` rejects it.) -/
theorem wire_number_sort_key_core_eq (l : List Char)
    (hnd : ∀ c ∈ l, isNonDecimalDigit c = false) :
    wire_number_sort_key_core l =
      some (natOfDigits (l.takeWhile pyIsDigit),
        (l.dropWhile pyIsDigit).takeWhile Char.isAlpha,
        natOfDigits (((l.dropWhile pyIsDigit).dropWhile Char.isAlpha).takeWhile pyIsDigit),
        ((l.dropWhile pyIsDigit).dropWhile Char.isAlpha).dropWhile pyIsDigit) := by
  have hdig : ∀ m : List Char, (∀ c ∈ m, isNonDecimalDigit c = false) →
      (if m.takeWhile pyIsDigit = [] then some 0 else pyInt (m.takeWhile pyIsDigit)) =
        some (natOfDigits (m.takeWhile pyIsDigit)) := by
    intro m hm
    by_cases h : m.takeWhile pyIsDigit = []
    · rw [if_pos h, h]
      rfl
    · rw [if_neg h]
      unfold pyInt
      rw [if_pos ⟨h, by
        rw [List.all_eq_true]
        intro c hc
        have hpd : pyIsDigit c = true := List.mem_takeWhile_imp hc
        have hmem : c ∈ m := List.Sublist.mem hc (List.takeWhile_sublist _)
        unfold pyIsDigit at hpd
        rw [hm c hmem, Bool.or_false] at hpd
        exact hpd⟩]
  have hnd2 : ∀ c ∈ (l.dropWhile pyIsDigit).dropWhile Char.isAlpha,
      isNonDecimalDigit c = false := fun c hc =>
    hnd c (List.Sublist.mem (List.Sublist.mem hc (List.dropWhile_sublist _))
      (List.dropWhile_sublist _))
  simp only [wire_number_sort_key_core]
  rw [hdig l hnd, Option.some_bind, hdig _ hnd2, Option.map_some']

theorem wire_number_sort_key_eq (s : String)
    (hnd : ∀ c ∈ s.data, isNonDecimalDigit c = false) :
    wire_number_sort_key s =
      (natOfDigits (s.data.takeWhile pyIsDigit),
        (s.data.dropWhile pyIsDigit).takeWhile Char.isAlpha,
        natOfDigits
          (((s.data.dropWhile pyIsDigit).dropWhile Char.isAlpha).takeWhile pyIsDigit),
        ((s.data.dropWhile pyIsDigit).dropWhile Char.isAlpha).dropWhile pyIsDigit) := by
  unfold wire_number_sort_key
  rw [wire_number_sort_key_core_eq s.data hnd]
  rfl

/-- Well-formedness of a `(page, grid)` pair for which the sort key can
recover the page and the three grid fragments exactly: the page is a
nonempty digit run, the grid is a nonempty leading alpha run followed by
a digit run and a trailing alpha run (trailing only after some digits). -/
def ValidPageGrid (p a n t : List Char) : Prop :=
  p ≠ [] ∧ (∀ c ∈ p, c.isDigit = true) ∧
    a ≠ [] ∧ (∀ c ∈ a, c.isAlpha = true) ∧
    (∀ c ∈ n, c.isDigit = true) ∧ (∀ c ∈ t, c.isAlpha = true) ∧ (n = [] → t = [])

instance (p a n t : List Char) : Decidable (ValidPageGrid p a n t) :=
  inferInstanceAs (Decidable (_ ∧ _))

/-- On a valid pair, the sort key of the formatted wire label is exactly
the 4-tuple `(page value, leading alpha, grid number value, trailing alpha)`. -/
theorem wire_number_sort_key_calculate (p a n t : List Char)
    (hv : ValidPageGrid p a n t) :
    wire_number_sort_key (calculate_wire_number ⟨p⟩ ⟨a ++ n ++ t⟩) =
      (natOfDigits p, a, natOfDigits n, t) := by
  obtain ⟨hp1, hp2, ha1, ha2, hn, ht, hnt⟩ := hv
  have hpstrip : pyStrip p = p :=
    pyStrip_eq_self p fun c hc => isDigit_not_isWhitespace c (hp2 c hc)
  have hcwn : calculate_wire_number ⟨p⟩ ⟨a ++ n ++ t⟩ = ⟨p ++ (a ++ n ++ t)⟩ := by
    unfold calculate_wire_number
    rw [if_neg]
    · rw [show (⟨p⟩ : String).data = p from rfl, hpstrip]
    · rw [show (⟨p⟩ : String).data = p from rfl, hpstrip]
      push_neg
      exact ⟨by simpa [String.ext_iff] using hp1, hp1⟩
  have hnd : ∀ d ∈ (⟨p ++ (a ++ n ++ t)⟩ : String).data, isNonDecimalDigit d = false := by
    intro d hd
    rcases List.mem_append.1 hd with h | h
    · exact isDigit_not_isNonDecimalDigit d (hp2 d h)
    · rcases List.mem_append.1 h with h' | h'
      · rcases List.mem_append.1 h' with h2 | h2
        · exact isAlpha_not_isNonDecimalDigit d (ha2 d h2)
        · exact isDigit_not_isNonDecimalDigit d (hn d h2)
      · exact isAlpha_not_isNonDecimalDigit d (ht d h')
  rw [hcwn, wire_number_sort_key_eq _ hnd]
  obtain ⟨c, a', rfl⟩ : ∃ c a', a = c :: a' := by
    cases a with
    | nil => exact absurd rfl ha1
    | cons c a' => exact ⟨c, a', rfl⟩
  have hchead : pyIsDigit c = false :=
    isAlpha_not_pyIsDigit c (ha2 c (List.mem_cons_self c a'))
  have hdata : (⟨p ++ (c :: a' ++ n ++ t)⟩ : String).data = p ++ (c :: (a' ++ n ++ t)) := by
    simp
  have hpall : ∀ d ∈ p, pyIsDigit d = true := fun d hd => pyIsDigit_of_isDigit d (hp2 d hd)
  have hnall : ∀ d ∈ n, pyIsDigit d = true := fun d hd => pyIsDigit_of_isDigit d (hn d hd)
  have h1 : (p ++ (c :: (a' ++ n ++ t))).takeWhile pyIsDigit = p := by
    rw [takeWhile_append_of_all _ _ _ hpall, List.takeWhile_cons, if_neg (by simp [hchead]),
      List.append_nil]
  have h2 : (p ++ (c :: (a' ++ n ++ t))).dropWhile pyIsDigit = c :: (a' ++ n ++ t) := by
    rw [dropWhile_append_of_all _ _ _ hpall, List.dropWhile_cons, if_neg (by simp [hchead])]
  have hnt_tw : (n ++ t).takeWhile Char.isAlpha = [] := by
    cases n with
    | nil =>
      rw [hnt rfl]
      rfl
    | cons d n' =>
      rw [List.cons_append, List.takeWhile_cons,
        if_neg (by simp [isDigit_not_isAlpha d (hn d (List.mem_cons_self d n'))])]
  have hnt_dw : (n ++ t).dropWhile Char.isAlpha = n ++ t := by
    cases n with
    | nil =>
      rw [hnt rfl]
      rfl
    | cons d n' =>
      rw [List.cons_append, List.dropWhile_cons,
        if_neg (by simp [isDigit_not_isAlpha d (hn d (List.mem_cons_self d n'))])]
  have h3 : (c :: (a' ++ n ++ t)).takeWhile Char.isAlpha = c :: a' := by
    rw [show c :: (a' ++ n ++ t) = (c :: a') ++ (n ++ t) by simp,
      takeWhile_append_of_all _ _ _ ha2, hnt_tw, List.append_nil]
  have h4 : (c :: (a' ++ n ++ t)).dropWhile Char.isAlpha = n ++ t := by
    rw [show c :: (a' ++ n ++ t) = (c :: a') ++ (n ++ t) by simp,
      dropWhile_append_of_all _ _ _ ha2, hnt_dw]
  have ht_tw : t.takeWhile pyIsDigit = [] :=
    takeWhile_eq_nil_of_head _ _ fun d hd =>
      isAlpha_not_pyIsDigit d (ht d (List.mem_of_mem_head? hd))
  have ht_dw : t.dropWhile pyIsDigit = t :=
    dropWhile_eq_self_of_head _ _ fun d hd =>
      isAlpha_not_pyIsDigit d (ht d (List.mem_of_mem_head? hd))
  have h5 : (n ++ t).takeWhile pyIsDigit = n := by
    rw [takeWhile_append_of_all _ _ _ hnall, ht_tw, List.append_nil]
  have h6 : (n ++ t).dropWhile pyIsDigit = t := by
    rw [dropWhile_append_of_all _ _ _ hnall, ht_dw]
  rw [show (⟨p ++ (c :: a' ++ n ++ t)⟩ : String).data = p ++ (c :: (a' ++ n ++ t)) by simp,
    h1, h2, h3, h4, h5, h6]

/-- Modelled from the spec: the ascending 4-tuple comparison
"(page as integer, leading grid alpha lexicographic, grid number as
integer, trailing grid alpha lexicographic)" that §3 says two labels
compare by. -/
def keyLtSpec (k1 k2 : SKey) : Prop :=
  k1.1 < k2.1 ∨ (k1.1 = k2.1 ∧
    (listCharLt k1.2.1 k2.2.1 = true ∨ (k1.2.1 = k2.2.1 ∧
      (k1.2.2.1 < k2.2.2.1 ∨ (k1.2.2.1 = k2.2.2.1 ∧
        listCharLt k1.2.2.2 k2.2.2.2 = true)))))

/-- The comparison performed by the code agrees with the spec's 4-tuple
comparison. -/
theorem keyLt_iff_spec (k1 k2 : SKey) : keyLt k1 k2 = true ↔ keyLtSpec k1 k2 := by
  unfold keyLt keyLtSpec lexStep
  by_cases e1 : natLtB k1.1 k2.1 = true
  · rw [if_pos e1]
    simp only [natLtB, decide_eq_true_eq] at e1
    simp [e1]
  · rw [if_neg e1]
    have e1n : ¬ k1.1 < k2.1 := by simpa [natLtB] using e1
    by_cases e1' : natLtB k2.1 k1.1 = true
    · rw [if_pos e1']
      have e1'n : k2.1 < k1.1 := by simpa [natLtB] using e1'
      refine ⟨fun h => absurd h (by simp), fun hspec => ?_⟩
      exfalso
      rcases hspec with h | ⟨heq, _⟩
      · omega
      · omega
    · rw [if_neg e1']
      have he1 : k1.1 = k2.1 := natLtB_conn _ _ (by simpa using e1) (by simpa using e1')
      by_cases e2 : listCharLt k1.2.1 k2.2.1 = true
      · rw [if_pos e2]
        simp [he1, e2]
      · rw [if_neg e2]
        by_cases e2' : listCharLt k2.2.1 k1.2.1 = true
        · rw [if_pos e2']
          refine ⟨fun h => absurd h (by simp), fun hspec => ?_⟩
          exfalso
          rcases hspec with h | ⟨heq, h | ⟨heq2, _⟩⟩
          · omega
          · exact absurd h e2
          · rw [heq2] at e2'
            rw [listCharLt_irrefl] at e2'
            exact absurd e2' (by simp)
        · rw [if_neg e2']
          have he2 : k1.2.1 = k2.2.1 :=
            listCharLt_conn _ _ (by simpa using e2) (by simpa using e2')
          by_cases e3 : natLtB k1.2.2.1 k2.2.2.1 = true
          · rw [if_pos e3]
            simp only [natLtB, decide_eq_true_eq] at e3
            simp [he1, he2, e3, listCharLt_irrefl]
          · rw [if_neg e3]
            have e3n : ¬ k1.2.2.1 < k2.2.2.1 := by simpa [natLtB] using e3
            by_cases e3' : natLtB k2.2.2.1 k1.2.2.1 = true
            · rw [if_pos e3']
              have e3'n : k2.2.2.1 < k1.2.2.1 := by simpa [natLtB] using e3'
              refine ⟨fun h => absurd h (by simp), fun hspec => ?_⟩
              exfalso
              rcases hspec with h | ⟨heq, h | ⟨heq2, h | ⟨heq3, _⟩⟩⟩
              · omega
              · exact absurd h e2
              · omega
              · omega
            · rw [if_neg e3']
              have he3 : k1.2.2.1 = k2.2.2.1 :=
                natLtB_conn _ _ (by simpa using e3) (by simpa using e3')
              simp [he1, he2, he3, listCharLt_irrefl, lt_irrefl]

/-! ### Claim C8: `calculate_wire_number` -/

/-- Claim C8 counterexample: for a page with surrounding whitespace the
code strips the page before concatenation, so the result is not
`page + grid` as the claim states for every non-blank page. -/
theorem c8_counterexample :
    calculate_wire_number " 1 " "A5" = "1A5" ∧
      calculate_wire_number " 1 " "A5" ≠ " 1 " ++ "A5" := by
  decide

/-- Claim C8 (amended): `calculate_wire_number(page, grid)` returns
`"0" + grid` whenever the page is empty or blank, and `strip(page) +
grid` (the page with surrounding whitespace removed, then the grid, no
separator) otherwise; in particular
`calculate_wire_number("", "C7") = "0C7"`,
`calculate_wire_number("1", "A5") = "1A5"` and
`calculate_wire_number("10", "B12") = "10B12"`. -/
theorem c8_calculate_wire_number :
    (∀ page grid : String,
      (pyStrip page.data = [] → calculate_wire_number page grid = "0" ++ grid) ∧
      (pyStrip page.data ≠ [] →
        calculate_wire_number page grid = (⟨pyStrip page.data⟩ : String) ++ grid)) ∧
    calculate_wire_number "" "C7" = "0C7" ∧
    calculate_wire_number "1" "A5" = "1A5" ∧
    calculate_wire_number "10" "B12" = "10B12" := by
  refine ⟨fun page grid => ⟨fun h => ?_, fun h => ?_⟩, by decide, by decide, by decide⟩
  · unfold calculate_wire_number
    rw [if_pos (Or.inr h)]
    obtain ⟨l⟩ := grid
    rfl
  · unfold calculate_wire_number
    rw [if_neg]
    · obtain ⟨l⟩ := grid
      rfl
    · rintro (h1 | h1)
      · subst h1
        exact h rfl
      · exact h h1

/-- Claim C8 witness: the general clause applied at the concrete input
`(" 1 ", "A5")`. -/
theorem c8_witness :
    calculate_wire_number " 1 " "A5" = (⟨pyStrip " 1 ".data⟩ : String) ++ "A5" :=
  (c8_calculate_wire_number.1 " 1 " "A5").2 (by decide)

/-! ### Claim C9: grid extraction fallback chain -/

/-- Modelled from the spec (§4.1 `decodeLocation`): the grid fallback
chain — text after the last separator when the descriptor contains a dot,
else `column+row`, else `column`, else `row`, else `"UNKNOWN"`. -/
def gridChainSpec (grid_desc column row : String) : String :=
  if grid_desc.data.contains '.' then ⟨afterLastDot grid_desc.data⟩
  else if column ≠ "" ∧ row ≠ "" then column ++ row
  else if column ≠ "" then column
  else if row ≠ "" then row
  else "UNKNOWN"

/-- Claim C9 counterexample: on the device-designation path a dotless
descriptor is returned unchanged, whereas the claimed chain (the
device path has no column/row inputs) would give `"UNKNOWN"` — the
wire-numbering path indeed gives `"UNKNOWN"` on the same input. -/
theorem c9_counterexample :
    extract_grid_position_device "B7" = "B7" ∧
      extract_grid_position "B7" "" "" = "UNKNOWN" ∧
      ("B7" : String) ≠ "UNKNOWN" := by
  decide

/-- Claim C9 (amended): the fallback chain (last dot component, else
column+row, else column, else row, else `"UNKNOWN"`) holds for every
input on the wire-numbering path; the device-designation path takes only
the descriptor and returns `""` for an empty descriptor, the text after
the last dot when one is present, and the descriptor unchanged
otherwise. -/
theorem c9_extract_grid_position :
    (∀ grid_desc column row : String,
      extract_grid_position grid_desc column row = gridChainSpec grid_desc column row) ∧
    (∀ grid_desc : String,
      extract_grid_position_device grid_desc =
        if grid_desc = "" then ""
        else if grid_desc.data.contains '.' then ⟨afterLastDot grid_desc.data⟩
        else grid_desc) := by
  refine ⟨fun gd col row => ?_, fun gd => rfl⟩
  unfold extract_grid_position gridChainSpec
  by_cases hc : gd.data.contains '.' = true
  · have hgd : gd ≠ "" := by
      intro hh
      subst hh
      simp at hc
    rw [if_pos ⟨hgd, hc⟩, if_pos hc]
  · rw [if_neg fun hh => hc hh.2, if_neg hc]

/-! ### Claim C5: totality and failure mode of the sort key -/

/-- Claim C5 counterexample: the wholly unparsable label `"???"` does not
receive the maximal sentinel and does not sort last — its key is
`(0, "", 0, "???")`, which sorts strictly before the valid label
`"1A1"` (= `calculate_wire_number "1" "A1"`). -/
theorem c5_counterexample :
    wire_number_sort_key "???" = (0, [], 0, "???".data) ∧
      keyLt (wire_number_sort_key "???")
        (wire_number_sort_key (calculate_wire_number "1" "A1")) = true ∧
      wire_number_sort_key "???" ≠ sentinelKey "???".data := by
  decide

/-- Claim C5 (amended): `wire_number_sort_key` never raises on any string
input: when the parsing body succeeds its 4-tuple is the key, and when an
`int` conversion raises, the `except` handler catches it and returns the
maximal sentinel `(999999, 'ZZZ', 999999, label)` instead of aborting —
a live path, taken e.g. for `"²"`, whose character passes `isdigit` but
is rejected by `int`.  A wholly unparsable label, however, does not
receive the sentinel and does not sort last: a label with no digit-like
and no alphabetic characters parses with every fragment empty, numeric
fragments defaulting to 0, so its key is `(0, "", 0, label)` — e.g.
`"???"` sorts strictly before the valid label `"1A1"`. -/
theorem c5_sort_key_failure_mode :
    (∀ (s : String) (k : SKey),
      wire_number_sort_key_core s.data = some k → wire_number_sort_key s = k) ∧
    (∀ s : String,
      wire_number_sort_key_core s.data = none →
        wire_number_sort_key s = sentinelKey s.data) ∧
    wire_number_sort_key_core "²".data = none ∧
    wire_number_sort_key "²" = sentinelKey "²".data ∧
    (∀ s : String, (∀ c ∈ s.data, pyIsDigit c = false) → (∀ c ∈ s.data, c.isAlpha = false) →
      wire_number_sort_key s = (0, [], 0, s.data)) ∧
    keyLt (wire_number_sort_key "???")
      (wire_number_sort_key (calculate_wire_number "1" "A1")) = true := by
  refine ⟨fun s k h => ?_, fun s h => ?_, by decide, by decide, fun s hd ha => ?_, by decide⟩
  · unfold wire_number_sort_key
    rw [h]
    rfl
  · unfold wire_number_sort_key
    rw [h]
    rfl
  · have h1 : s.data.takeWhile pyIsDigit = [] :=
      takeWhile_eq_nil_of_head _ _ fun c hc => hd c (List.mem_of_mem_head? hc)
    have h2 : s.data.dropWhile pyIsDigit = s.data :=
      dropWhile_eq_self_of_head _ _ fun c hc => hd c (List.mem_of_mem_head? hc)
    have h3 : s.data.takeWhile Char.isAlpha = [] :=
      takeWhile_eq_nil_of_head _ _ fun c hc => ha c (List.mem_of_mem_head? hc)
    have h4 : s.data.dropWhile Char.isAlpha = s.data :=
      dropWhile_eq_self_of_head _ _ fun c hc => ha c (List.mem_of_mem_head? hc)
    unfold wire_number_sort_key
    simp only [wire_number_sort_key_core]
    rw [h1, if_pos rfl, Option.some_bind, h2, h3, h4, h1, if_pos rfl, Option.map_some',
      Option.getD_some, h2]

/-- Claim C5 witness: the unparsable-label clause applied at the concrete
label `"???"`, none of whose characters is digit-like or alphabetic. -/
theorem c5_witness : wire_number_sort_key "???" = (0, [], 0, "???".data) :=
  c5_sort_key_failure_mode.2.2.2.2.1 "???" (by decide) (by decide)

/-! ### Claim C4: ordering of formatted labels -/

/-- Claim C4: `sortKey(formatWireLabel("2","A1")) <
sortKey(formatWireLabel("10","A1"))` (page compared numerically), and for
every pair of valid `(page, grid)` inputs the key of the formatted label
is exactly the 4-tuple `(page as integer, leading grid alpha, grid number
as integer, trailing grid alpha)` and two labels compare by that tuple
ascending — page numerically, alpha lexicographically, number
numerically, trailing alpha lexicographically (`keyLtSpec`). -/
theorem c4_sort_key_orders_numerically :
    keyLt (wire_number_sort_key (calculate_wire_number "2" "A1"))
        (wire_number_sort_key (calculate_wire_number "10" "A1")) = true ∧
    ∀ p1 a1 n1 t1 p2 a2 n2 t2 : List Char,
      ValidPageGrid p1 a1 n1 t1 → ValidPageGrid p2 a2 n2 t2 →
      wire_number_sort_key (calculate_wire_number ⟨p1⟩ ⟨a1 ++ n1 ++ t1⟩) =
          (natOfDigits p1, a1, natOfDigits n1, t1) ∧
        (keyLt (wire_number_sort_key (calculate_wire_number ⟨p1⟩ ⟨a1 ++ n1 ++ t1⟩))
            (wire_number_sort_key (calculate_wire_number ⟨p2⟩ ⟨a2 ++ n2 ++ t2⟩)) = true ↔
          keyLtSpec (natOfDigits p1, a1, natOfDigits n1, t1)
            (natOfDigits p2, a2, natOfDigits n2, t2)) := by
  refine ⟨by decide, fun p1 a1 n1 t1 p2 a2 n2 t2 hv1 hv2 => ?_⟩
  rw [wire_number_sort_key_calculate p1 a1 n1 t1 hv1,
    wire_number_sort_key_calculate p2 a2 n2 t2 hv2]
  exact ⟨rfl, keyLt_iff_spec _ _⟩

/-- Claim C4 witness: the general clause applied to the valid pairs
`("2", "A1")` and `("10", "A1")`; numerically `2 < 10` even though
`"10" < "2"` lexicographically. -/
theorem c4_witness :
    wire_number_sort_key (calculate_wire_number ⟨"2".data⟩ ⟨"A".data ++ "1".data ++ []⟩) =
        (natOfDigits "2".data, "A".data, natOfDigits "1".data, []) ∧
      (keyLt (wire_number_sort_key (calculate_wire_number ⟨"2".data⟩ ⟨"A".data ++ "1".data ++ []⟩))
          (wire_number_sort_key
            (calculate_wire_number ⟨"10".data⟩ ⟨"A".data ++ "1".data ++ []⟩)) = true ↔
        keyLtSpec (natOfDigits "2".data, "A".data, natOfDigits "1".data, [])
          (natOfDigits "10".data, "A".data, natOfDigits "1".data, [])) :=
  c4_sort_key_orders_numerically.2 "2".data "A".data "1".data [] "10".data "A".data "1".data []
    (by decide) (by decide)

/-! ### Claim C3: distinctness of the labels of one conflict group -/

/-- Claim C3: for a conflict group of any size `n ≥ 1`, the `n` assigned
labels (base for index 0, `base + "." + chr(ord('A') + i - 1)` for index
`i ≥ 1`, rendered as code-point sequences since Python's `chr` is
injective on its whole domain) are pairwise distinct — including groups
of more than 27 members, where the suffix character passes beyond
`'Z'`. -/
theorem c3_group_labels_distinct (base : List Nat) (n : Nat) :
    (group_suffix_labels base n).Pairwise (· ≠ ·) := by
  unfold group_suffix_labels
  rw [List.pairwise_map]
  refine (List.pairwise_lt_range n).imp ?_
  intro i j hij
  unfold unique_wire_number_codes
  rcases Nat.eq_zero_or_pos i with hi | hi
  · subst hi
    rw [if_pos rfl, if_neg (by omega)]
    intro h
    have := congrArg List.length h
    simp at this
  · rw [if_neg (by omega), if_neg (by omega)]
    intro h
    have := List.append_cancel_left h
    simp at this
    omega

/-! ### Claim C1: suffix assignment within a conflict group -/

/-- Claim C1: within every conflict group, after stable-sorting by the
tie-break coordinate ((x, y) ascending for signals; device id ascending
for devices), index 0 keeps the base label unchanged and index `i ≥ 1`
receives `base + "." + chr(ord('A') + i - 1)`; in particular, three
signals sharing base label "1A5" at x-coordinates 100, 200, 300 (equal
y, presented to the engine in the order 300, 100, 200) receive "1A5",
"1A5.A", "1A5.B" respectively. -/
theorem c1_conflict_group_suffixes :
    (∀ (base : String) (g : List SignalInfo),
      List.Sorted sigLe (List.insertionSort sigLe g) ∧
      ∀ i : Nat, (assignGroup base g)[i]? =
        ((List.insertionSort sigLe g)[i]?).map
          fun s => (s.signal_name, unique_wire_number base i)) ∧
    (∀ (base : String) (ids : List Nat),
      List.Sorted (fun a b : Nat => a ≤ b)
        (List.insertionSort (fun a b : Nat => a ≤ b) ids) ∧
      ∀ i : Nat, (group_final_designations base ids)[i]? =
        ((List.insertionSort (fun a b : Nat => a ≤ b) ids)[i]?).map
          fun d => (d, unique_wire_number base i)) ∧
    process_connections
        [⟨3, none, "S3", [⟨"1", "/1.A5", "", "", 300, 0⟩], [33]⟩,
         ⟨1, none, "S1", [⟨"1", "/1.A5", "", "", 100, 0⟩], [11]⟩,
         ⟨2, none, "S2", [⟨"1", "/1.A5", "", "", 200, 0⟩], [22]⟩] =
      [("S1", "1A5"), ("S2", "1A5.A"), ("S3", "1A5.B")] ∧
    unique_wire_number "1A5" 0 = "1A5" ∧
    unique_wire_number "1A5" 1 = "1A5.A" ∧
    unique_wire_number "1A5" 2 = "1A5.B" := by
  refine ⟨fun base g => ⟨List.sorted_insertionSort sigLe g, fun i => ?_⟩,
    fun base ids => ⟨List.sorted_insertionSort _ ids, fun i => ?_⟩,
    by decide, by decide, by decide, by decide⟩
  · unfold assignGroup
    rw [List.getElem?_map, List.getElem?_enum]
    cases h : (List.insertionSort sigLe g)[i]? <;> simp [h]
  · match ids with
    | [] =>
      cases i <;> rfl
    | [d] =>
      cases i with
      | zero => rfl
      | succ n => rfl
    | d1 :: d2 :: rest =>
      show (List.map (fun p => (p.2, unique_wire_number base p.1))
        (List.enum (List.insertionSort (fun a b : Nat => a ≤ b) (d1 :: d2 :: rest))))[i]? = _
      rw [List.getElem?_map, List.getElem?_enum]
      cases h : (List.insertionSort (fun a b : Nat => a ≤ b) (d1 :: d2 :: rest))[i]? <;>
        simp [h]

/-! ### Pipeline characterization lemmas -/

/-- A group of the first pass carries a nonempty signal name and exactly
the non-skipped connections of that name, in input order. -/
theorem groupBySignal_mem (conns : List Connection) (k : String) (cs : List Connection)
    (h : (k, cs) ∈ groupBySignal conns) :
    k ≠ "" ∧
      cs = conns.filter fun c =>
        !has_fix_wire_name_attribute c && (c.signalName = k) := by
  have hchar := groupFold_mem_char _ _ _ _ _ h
  have hk : k ≠ "" := by
    refine groupFold_key_invariant (·.signalName)
      (fun c => !has_fix_wire_name_attribute c && !(c.signalName = ""))
      (fun s => s ≠ "") conns [] (by simp [mdKeys]) ?_ k (List.mem_map_of_mem _ h)
    intro x _ hkeep
    rw [Bool.and_eq_true] at hkeep
    simpa using hkeep.2
  refine ⟨hk, hchar.trans (List.filter_congr ?_)⟩
  intro c _
  by_cases h1 : c.signalName = k
  · have h2 : ¬(c.signalName = "") := by
      rw [h1]
      exact hk
    simp only [h1, h2, decide_True, decide_False, Bool.not_false, Bool.and_true]
    rw [decide_eq_false hk]
    simp
  · simp [h1]

/-- What a `signal_data` entry is made of: its group in the first-pass
dict, a nonempty candidate list, and the leftmost sort-key-minimal
candidate supplying base label and tie-break coordinates. -/
theorem signalData_mem_elim (gs : List (String × List Connection)) (e : SignalInfo)
    (h : e ∈ signalData gs) :
    ∃ cs d, (e.signal_name, cs) ∈ gs ∧
      cs.flatMap get_connection_wire_numbers_and_positions ≠ [] ∧
      leftmostMin wdLe (cs.flatMap get_connection_wire_numbers_and_positions) = some d ∧
      e.base_wire_number = d.wire_number ∧ e.x = d.x ∧ e.y = d.y ∧
      e.net_segment_ids = (cs.flatMap Connection.netSegmentIds).dedup ∧
      e.connection_ids = cs.map Connection.connId := by
  unfold signalData at h
  rw [List.mem_filterMap] at h
  obtain ⟨g, hg, hfg⟩ := h
  unfold signalBuild at hfg
  by_cases hwd : g.2.flatMap get_connection_wire_numbers_and_positions = []
  · rw [if_pos hwd] at hfg
    exact absurd hfg (by simp)
  · rw [if_neg hwd, head?_insertionSort] at hfg
    cases hd : leftmostMin wdLe (g.2.flatMap get_connection_wire_numbers_and_positions) with
    | none =>
      rw [hd] at hfg
      exact absurd hfg (by simp)
    | some d =>
      rw [hd] at hfg
      replace hfg := Option.some.inj hfg
      subst hfg
      exact ⟨g.2, d, hg, hwd, hd, rfl, rfl, rfl, rfl, rfl⟩

/-- Every `signal_data` entry receives a final label in the third pass. -/
theorem label_of_mem_signalData (sd : List SignalInfo) (e : SignalInfo) (he : e ∈ sd) :
    ∃ lbl, (e.signal_name, lbl) ∈
      (wire_number_groups sd).flatMap fun g => assignGroup g.1 g.2 := by
  have hget : mdGet (wire_number_groups sd) e.base_wire_number =
      sd.filter fun s => true && (s.base_wire_number = e.base_wire_number) := by
    unfold wire_number_groups
    rw [groupFold_mdGet]
    rfl
  have hein : e ∈ mdGet (wire_number_groups sd) e.base_wire_number := by
    rw [hget]
    exact List.mem_filter.2 ⟨he, by simp⟩
  have hne : mdGet (wire_number_groups sd) e.base_wire_number ≠ [] :=
    List.ne_nil_of_mem hein
  have hmem := mem_of_mdGet_ne_nil _ _ hne
  have hesort : e ∈ List.insertionSort sigLe
      (mdGet (wire_number_groups sd) e.base_wire_number) :=
    (List.mem_insertionSort sigLe).2 hein
  obtain ⟨i, hilen, hie⟩ := List.mem_iff_getElem.1 hesort
  refine ⟨unique_wire_number e.base_wire_number i, ?_⟩
  rw [List.mem_flatMap]
  refine ⟨(e.base_wire_number, mdGet (wire_number_groups sd) e.base_wire_number), hmem, ?_⟩
  unfold assignGroup
  have henum : (i, e) ∈ (List.insertionSort sigLe
      (mdGet (wire_number_groups sd) e.base_wire_number)).enum := by
    have hh : (List.insertionSort sigLe
        (mdGet (wire_number_groups sd) e.base_wire_number)).enum[i]? = some (i, e) := by
      rw [List.getElem?_enum, List.getElem?_eq_getElem hilen, hie]
      rfl
    exact List.getElem?_mem hh
  exact List.mem_map_of_mem (fun p => (p.2.signal_name, unique_wire_number e.base_wire_number p.1)) henum

/-- Second projection of an `enum` member is a member of the list. -/
theorem snd_mem_of_mem_enum {α : Type} {p : Nat × α} {l : List α} (h : p ∈ l.enum) :
    p.2 ∈ l := by
  rw [List.enum_eq_zip_range] at h
  obtain ⟨x, y⟩ := p
  exact (List.of_mem_zip h).2

/-- Every pair of the final wire-number assignment names a `signal_data`
entry with that signal name. -/
theorem mem_process_connections_elim (conns : List Connection) (pr : String × String)
    (h : pr ∈ process_connections conns) :
    ∃ e ∈ signalData (groupBySignal conns), pr.1 = e.signal_name := by
  unfold process_connections at h
  rw [List.mem_flatMap] at h
  obtain ⟨g, hg, hpr⟩ := h
  unfold assignGroup at hpr
  rw [List.mem_map] at hpr
  obtain ⟨p, hp, hpr⟩ := hpr
  have hsort := snd_mem_of_mem_enum hp
  rw [List.mem_insertionSort] at hsort
  have hchar := groupFold_mem_char _ _ _ _ _ hg
  rw [hchar] at hsort
  refine ⟨p.2, (List.mem_filter.1 hsort).1, ?_⟩
  rw [← hpr]

/-! ### Claim C2: minimal candidate selection per signal -/

/-- Claim C2: for every signal the assigned base label is the minimal
candidate under the sort key over all pin placements of the signal's
non-excluded connections, the minimal candidate's (x, y) becomes the
signal's tie-break coordinate, and on exact key ties the candidate first
encountered in collection order is kept: the entry at some index `i` of
the candidate list equals `(base, x, y)`, every candidate's key is `≥`
the base's key, and every candidate before index `i` has a strictly
greater key. -/
theorem c2_base_label_minimal (conns : List Connection) (e : SignalInfo)
    (he : e ∈ signalData (groupBySignal conns)) :
    ∃ i : Nat,
      ((conns.filter fun c =>
          !has_fix_wire_name_attribute c && (c.signalName = e.signal_name)).flatMap
        get_connection_wire_numbers_and_positions)[i]? =
          some ⟨e.base_wire_number, e.x, e.y⟩ ∧
      (∀ d ∈ (conns.filter fun c =>
          !has_fix_wire_name_attribute c && (c.signalName = e.signal_name)).flatMap
            get_connection_wire_numbers_and_positions,
        keyLe (wire_number_sort_key e.base_wire_number)
          (wire_number_sort_key d.wire_number) = true) ∧
      ∀ (j : Nat) (d : WireDatum), j < i →
        ((conns.filter fun c =>
            !has_fix_wire_name_attribute c && (c.signalName = e.signal_name)).flatMap
          get_connection_wire_numbers_and_positions)[j]? = some d →
        keyLe (wire_number_sort_key d.wire_number)
          (wire_number_sort_key e.base_wire_number) = false := by
  obtain ⟨cs, d, hgmem, hwd, hmin, hbase, hx, hy, _, _⟩ := signalData_mem_elim _ _ he
  obtain ⟨hk, hcs⟩ := groupBySignal_mem conns e.signal_name cs hgmem
  rw [← hcs]
  obtain ⟨i, hi, hall, hfirst⟩ :=
    leftmostMin_spec wdLe (fun a b => IsTotal.total a b)
      (fun a b c h1 h2 => IsTrans.trans a b c h1 h2) _ d hmin
  refine ⟨i, ?_, ?_, ?_⟩
  · rw [hi, hbase, hx, hy]
  · intro d' hd'
    have hle := hall d' hd'
    unfold wdLe at hle
    rw [hbase]
    exact hle
  · intro j d' hj hd'
    have hns := hfirst j d' hj hd'
    unfold wdLe at hns
    rw [hbase]
    cases hbb : keyLe (wire_number_sort_key d'.wire_number)
        (wire_number_sort_key d.wire_number) with
    | false => rfl
    | true => exact absurd hbb hns

/-- Claim C2 witness: one connection of signal "S" with two pins mapping
to the identical label "1A5" at x = 50 (first) and x = 10 (second); the
tie is broken in favour of the first-collected candidate, so the signal's
tie-break coordinate is x = 50. -/
theorem c2_witness :
    ∃ i : Nat,
      ((([⟨1, none, "S", [⟨"1", "/1.A5", "", "", 50, 0⟩, ⟨"1", "/1.A5", "", "", 10, 0⟩],
            [5]⟩] : List Connection).filter fun c =>
          !has_fix_wire_name_attribute c &&
            (c.signalName = (⟨"S", "1A5", 50, 0, [5], [1]⟩ : SignalInfo).signal_name)).flatMap
        get_connection_wire_numbers_and_positions)[i]? =
          some ⟨(⟨"S", "1A5", 50, 0, [5], [1]⟩ : SignalInfo).base_wire_number,
            (⟨"S", "1A5", 50, 0, [5], [1]⟩ : SignalInfo).x,
            (⟨"S", "1A5", 50, 0, [5], [1]⟩ : SignalInfo).y⟩ ∧
      (∀ d ∈ (([⟨1, none, "S", [⟨"1", "/1.A5", "", "", 50, 0⟩, ⟨"1", "/1.A5", "", "", 10, 0⟩],
            [5]⟩] : List Connection).filter fun c =>
          !has_fix_wire_name_attribute c &&
            (c.signalName = (⟨"S", "1A5", 50, 0, [5], [1]⟩ : SignalInfo).signal_name)).flatMap
            get_connection_wire_numbers_and_positions,
        keyLe (wire_number_sort_key (⟨"S", "1A5", 50, 0, [5], [1]⟩ : SignalInfo).base_wire_number)
          (wire_number_sort_key d.wire_number) = true) ∧
      ∀ (j : Nat) (d : WireDatum), j < i →
        ((([⟨1, none, "S", [⟨"1", "/1.A5", "", "", 50, 0⟩, ⟨"1", "/1.A5", "", "", 10, 0⟩],
            [5]⟩] : List Connection).filter fun c =>
          !has_fix_wire_name_attribute c &&
            (c.signalName = (⟨"S", "1A5", 50, 0, [5], [1]⟩ : SignalInfo).signal_name)).flatMap
          get_connection_wire_numbers_and_positions)[j]? = some d →
        keyLe (wire_number_sort_key d.wire_number)
          (wire_number_sort_key
            (⟨"S", "1A5", 50, 0, [5], [1]⟩ : SignalInfo).base_wire_number) = false :=
  c2_base_label_minimal
    [⟨1, none, "S", [⟨"1", "/1.A5", "", "", 50, 0⟩, ⟨"1", "/1.A5", "", "", 10, 0⟩], [5]⟩]
    ⟨"S", "1A5", 50, 0, [5], [1]⟩ (by decide)

/-! ### Claim C6: the FixWireName exclusion -/

/-- Claim C6 counterexample: a signal whose only non-skipped connection
has no resolvable pin placements is dropped entirely — the run assigns
no label to signal "S" even though it has a non-skipped connection, so
"still labeled when it has other non-skipped connections" fails as
stated. -/
theorem c6_counterexample :
    process_connections
        [⟨1, some "1", "S", [⟨"1", "/1.A5", "", "", 0, 0⟩], [10]⟩,
         ⟨2, none, "S", [], [20]⟩] = [] ∧
      has_fix_wire_name_attribute
        ⟨1, some "1", "S", [⟨"1", "/1.A5", "", "", 0, 0⟩], [10]⟩ = true ∧
      has_fix_wire_name_attribute ⟨2, none, "S", [], [20]⟩ = false ∧
      (⟨2, none, "S", [], [20]⟩ : Connection).signalName = "S" := by
  decide

/-- A grouping fold is unchanged by pre-filtering with any predicate that
holds on every kept element. -/
theorem groupFold_filter_of_keep {α : Type} (keyf : α → String) (keep : α → Bool)
    (pred : α → Bool) (hp : ∀ x, keep x = true → pred x = true)
    (l : List α) (m : List (String × List α)) :
    groupFold keyf keep m l = groupFold keyf keep m (l.filter pred) := by
  induction l generalizing m with
  | nil => rfl
  | cons x rest ih =>
    rw [List.filter_cons]
    by_cases hk : keep x = true
    · rw [if_pos (hp x hk)]
      simp only [groupFold, List.foldl_cons, if_pos hk]
      exact ih _
    · by_cases hpx : pred x = true
      · rw [if_pos hpx]
        simp only [groupFold, List.foldl_cons, if_neg hk]
        exact ih _
      · rw [if_neg hpx]
        simp only [groupFold, List.foldl_cons, if_neg hk]
        exact ih _

/-- Claim C6 (amended): a connection is skipped iff its net's
`FixWireName` value is present and its stripped, lowercased form is not
one of `""`, `"0"`, `"false"`, `"no"`; skipped connections contribute
nothing at all to the run (the signal grouping — and with it every
candidate set and net-segment list — equals that of the input with the
skipped connections removed); and a signal is still labeled provided
some other non-skipped connection of the same name contributes at least
one pin placement. -/
theorem c6_fix_wire_name_exclusion :
    (∀ c : Connection, has_fix_wire_name_attribute c = true ↔
      ∃ v, c.fixWireName = some v ∧
        (⟨pyLower (pyStrip v.data)⟩ : String) ∉ (["", "0", "false", "no"] : List String)) ∧
    (∀ conns : List Connection,
      groupBySignal conns =
        groupBySignal (conns.filter fun c => !has_fix_wire_name_attribute c)) ∧
    (∀ (conns : List Connection) (s : String), s ≠ "" →
      (∃ c ∈ conns, has_fix_wire_name_attribute c = false ∧ c.signalName = s ∧ c.pins ≠ []) →
      ∃ lbl, (s, lbl) ∈ process_connections conns) := by
  refine ⟨fun c => ?_, fun conns => ?_, fun conns s hs ⟨c, hc, hcfix, hcname, hcpins⟩ => ?_⟩
  · cases hfix : c.fixWireName with
    | none => simp [has_fix_wire_name_attribute, hfix]
    | some v =>
      simp only [has_fix_wire_name_attribute, hfix]
      constructor
      · intro h
        rw [Bool.and_eq_true] at h
        refine ⟨v, rfl, ?_⟩
        intro hmem
        have h2 := h.2
        rw [Bool.not_eq_true'] at h2
        have h3 : (["", "0", "false", "no"] : List String).contains
            ⟨pyLower (pyStrip v.data)⟩ = true := List.elem_iff.2 hmem
        rw [h2] at h3
        exact absurd h3 (by simp)
      · rintro ⟨v2, hv2, hnotin⟩
        replace hv2 := Option.some.inj hv2
        subst hv2
        rw [Bool.and_eq_true]
        constructor
        · rw [Bool.not_eq_true', decide_eq_false_iff_not]
          rintro rfl
          exact hnotin (by decide)
        · rw [Bool.not_eq_true']
          cases hcon : (["", "0", "false", "no"] : List String).contains
              ⟨pyLower (pyStrip v.data)⟩ with
          | false => rfl
          | true => exact absurd (List.elem_iff.1 hcon) hnotin
  · exact groupFold_filter_of_keep _ _ _
      (fun x hx => by
        rw [Bool.and_eq_true] at hx
        exact hx.1) conns []
  · subst hcname
    have hget : mdGet (groupBySignal conns) c.signalName =
        conns.filter fun y =>
          (!has_fix_wire_name_attribute y && !(y.signalName = "")) &&
            (y.signalName = c.signalName) := by
      unfold groupBySignal
      rw [groupFold_mdGet]
      rfl
    have hcmem : c ∈ mdGet (groupBySignal conns) c.signalName := by
      rw [hget]
      refine List.mem_filter.2 ⟨hc, ?_⟩
      simp [hcfix, hs]
    have hgrp := mem_of_mdGet_ne_nil _ _ (List.ne_nil_of_mem hcmem)
    obtain ⟨p, prest, hpins⟩ : ∃ p prest, c.pins = p :: prest := by
      cases hp : c.pins with
      | nil => exact absurd hp hcpins
      | cons p prest => exact ⟨p, prest, rfl⟩
    have hwdne : (mdGet (groupBySignal conns) c.signalName).flatMap
        get_connection_wire_numbers_and_positions ≠ [] := by
      refine List.ne_nil_of_mem (a :=
        ⟨calculate_wire_number p.page (extract_grid_position p.grid_desc p.column p.row),
          p.x, p.y⟩) ?_
      rw [List.mem_flatMap]
      refine ⟨c, hcmem, ?_⟩
      unfold get_connection_wire_numbers_and_positions
      rw [hpins]
      exact List.mem_cons_self _ _
    cases hh : (List.insertionSort wdLe
        ((mdGet (groupBySignal conns) c.signalName).flatMap
          get_connection_wire_numbers_and_positions)).head? with
    | none =>
      rw [List.head?_eq_none_iff] at hh
      have hperm := List.perm_insertionSort wdLe
        ((mdGet (groupBySignal conns) c.signalName).flatMap
          get_connection_wire_numbers_and_positions)
      rw [hh] at hperm
      exact absurd hperm.symm.eq_nil hwdne
    | some d0 =>
      have hbuild : signalBuild (c.signalName, mdGet (groupBySignal conns) c.signalName) =
          some ⟨c.signalName, d0.wire_number, d0.x, d0.y,
            ((mdGet (groupBySignal conns) c.signalName).flatMap
              Connection.netSegmentIds).dedup,
            (mdGet (groupBySignal conns) c.signalName).map Connection.connId⟩ := by
        unfold signalBuild
        rw [if_neg hwdne, hh]
        rfl
      have hmem : (⟨c.signalName, d0.wire_number, d0.x, d0.y,
          ((mdGet (groupBySignal conns) c.signalName).flatMap
            Connection.netSegmentIds).dedup,
          (mdGet (groupBySignal conns) c.signalName).map Connection.connId⟩ : SignalInfo) ∈
          signalData (groupBySignal conns) := by
        unfold signalData
        rw [List.mem_filterMap]
        exact ⟨(c.signalName, mdGet (groupBySignal conns) c.signalName), hgrp, hbuild⟩
      obtain ⟨lbl, hlbl⟩ := label_of_mem_signalData _ _ hmem
      exact ⟨lbl, hlbl⟩

/-- Claim C6 witness: signal "S" has a skipped connection and a
non-skipped connection with a pin; a label for "S" is assigned. -/
theorem c6_witness :
    ∃ lbl, ("S", lbl) ∈ process_connections
      [⟨1, some "1", "S", [⟨"1", "/1.A5", "", "", 0, 0⟩], [10]⟩,
       ⟨2, none, "S", [⟨"2", "/2.B3", "", "", 7, 9⟩], [20]⟩] :=
  c6_fix_wire_name_exclusion.2.2
    [⟨1, some "1", "S", [⟨"1", "/1.A5", "", "", 0, 0⟩], [10]⟩,
     ⟨2, none, "S", [⟨"2", "/2.B3", "", "", 7, 9⟩], [20]⟩]
    "S" (by decide) (by decide)

/-! ### Claim C10: connections with empty signal name are dropped -/

/-- Claim C10: a non-excluded connection whose signal-name lookup yields
an empty value is silently dropped — it is grouped into no signal, no
signal with its (empty) name is ever assigned a wire number, and none of
its net segments (which belong to it alone) are written during the
run. -/
theorem c10_unnamed_connection_dropped (conns : List Connection) (c : Connection)
    (hc : c ∈ conns) (hfix : has_fix_wire_name_attribute c = false)
    (hname : c.signalName = "")
    (hown : ∀ c' ∈ conns, c' ≠ c → ∀ n ∈ c.netSegmentIds, n ∉ c'.netSegmentIds) :
    (∀ g ∈ groupBySignal conns, c ∉ g.2) ∧
      (∀ pr ∈ process_connections conns, pr.1 ≠ c.signalName) ∧
      ∀ n ∈ c.netSegmentIds, n ∉ writtenNetSegments conns := by
  refine ⟨?_, ?_, ?_⟩
  · rintro ⟨k, cs⟩ hg hmem
    obtain ⟨hk, hcs⟩ := groupBySignal_mem conns k cs hg
    rw [hcs] at hmem
    have hpred := (List.mem_filter.1 hmem).2
    rw [Bool.and_eq_true] at hpred
    have h2 := hpred.2
    rw [decide_eq_true_eq] at h2
    exact hk (h2.symm.trans hname)
  · intro pr hpr
    obtain ⟨e, he, hpre⟩ := mem_process_connections_elim conns pr hpr
    obtain ⟨cs, d, hgmem, _, _, _, _, _, _, _⟩ := signalData_mem_elim _ _ he
    obtain ⟨hk, _⟩ := groupBySignal_mem conns e.signal_name cs hgmem
    rw [hpre, hname]
    exact hk
  · intro n hn hwritten
    unfold writtenNetSegments at hwritten
    rw [List.mem_flatMap] at hwritten
    obtain ⟨e, he, hne⟩ := hwritten
    obtain ⟨cs, d, hgmem, _, _, _, _, _, hsegs, _⟩ := signalData_mem_elim _ _ he
    obtain ⟨hk, hcs⟩ := groupBySignal_mem conns e.signal_name cs hgmem
    rw [hsegs, List.mem_dedup, List.mem_flatMap] at hne
    obtain ⟨c2, hc2cs, hnc2⟩ := hne
    rw [hcs] at hc2cs
    have hfilter := List.mem_filter.1 hc2cs
    have hpred := hfilter.2
    rw [Bool.and_eq_true] at hpred
    have hc2name := hpred.2
    rw [decide_eq_true_eq] at hc2name
    have hc2ne : c2 ≠ c := by
      intro hh
      subst hh
      exact hk ((hname.symm.trans hc2name).symm)
    exact hown c2 hfilter.1 hc2ne n hn hnc2

/-- Claim C10 witness: a connection with empty signal name beside a
normal one; it lands in no group, the assignment has no entry under its
name, and its net segment 5 is never written. -/
theorem c10_witness :
    (∀ g ∈ groupBySignal
        [⟨1, none, "", [⟨"1", "/1.A5", "", "", 0, 0⟩], [5]⟩,
         ⟨2, none, "S", [⟨"1", "/1.B2", "", "", 1, 1⟩], [6]⟩],
      (⟨1, none, "", [⟨"1", "/1.A5", "", "", 0, 0⟩], [5]⟩ : Connection) ∉ g.2) ∧
      (∀ pr ∈ process_connections
          [⟨1, none, "", [⟨"1", "/1.A5", "", "", 0, 0⟩], [5]⟩,
           ⟨2, none, "S", [⟨"1", "/1.B2", "", "", 1, 1⟩], [6]⟩],
        pr.1 ≠ (⟨1, none, "", [⟨"1", "/1.A5", "", "", 0, 0⟩], [5]⟩ : Connection).signalName) ∧
      ∀ n ∈ (⟨1, none, "", [⟨"1", "/1.A5", "", "", 0, 0⟩], [5]⟩ : Connection).netSegmentIds,
        n ∉ writtenNetSegments
          [⟨1, none, "", [⟨"1", "/1.A5", "", "", 0, 0⟩], [5]⟩,
           ⟨2, none, "S", [⟨"1", "/1.B2", "", "", 1, 1⟩], [6]⟩] :=
  c10_unnamed_connection_dropped
    [⟨1, none, "", [⟨"1", "/1.A5", "", "", 0, 0⟩], [5]⟩,
     ⟨2, none, "S", [⟨"1", "/1.B2", "", "", 1, 1⟩], [6]⟩]
    ⟨1, none, "", [⟨"1", "/1.A5", "", "", 0, 0⟩], [5]⟩
    (by decide) (by decide) rfl (by decide)

/-! ### Claim C7: terminal-device exclusion -/

/-- Ids assigned inside one designation group come from the group. -/
theorem mem_ids_of_group_final_designations (base : String) (ids : List Nat)
    (pr : Nat × String) (h : pr ∈ group_final_designations base ids) : pr.1 ∈ ids := by
  match ids with
  | [] =>
    simp only [group_final_designations] at h
    simp at h
  | [d] =>
    simp only [group_final_designations, List.mem_singleton] at h
    rw [h]
    exact List.mem_singleton.2 rfl
  | d1 :: d2 :: rest =>
    simp only [group_final_designations, List.mem_map] at h
    obtain ⟨p, hp, hpr⟩ := h
    rw [← hpr]
    have := snd_mem_of_mem_enum hp
    rw [List.mem_insertionSort] at this
    exact this

/-- All the values stored in a multidict. -/
def mdValues {α : Type} (m : List (String × List α)) : List α := m.flatMap (·.2)

theorem mdValues_cons {α : Type} (k : String) (vs : List α)
    (rest : List (String × List α)) :
    mdValues ((k, vs) :: rest) = vs ++ mdValues rest := by
  unfold mdValues
  rw [List.flatMap_cons]

theorem mdAdd_cons {α : Type} (k1 : String) (vs1 : List α)
    (rest : List (String × List α)) (k0 : String) (v0 : α) :
    mdAdd ((k1, vs1) :: rest) k0 v0 =
      if k1 = k0 then (k1, vs1 ++ [v0]) :: rest else (k1, vs1) :: mdAdd rest k0 v0 := rfl

theorem mem_mdValues_mdAdd {α : Type} (m : List (String × List α)) (k0 : String) (v0 : α)
    (w : α) (h : w ∈ mdValues (mdAdd m k0 v0)) : w ∈ mdValues m ∨ w = v0 := by
  induction m with
  | nil =>
    simp [mdAdd, mdValues] at h
    exact Or.inr h
  | cons p rest ih =>
    obtain ⟨k1, vs1⟩ := p
    by_cases h1 : k1 = k0
    · subst h1
      rw [mdAdd_cons, if_pos rfl, mdValues_cons, List.mem_append, List.mem_append] at h
      rw [mdValues_cons, List.mem_append]
      rcases h with (h | h) | h
      · exact Or.inl (Or.inl h)
      · exact Or.inr (List.mem_singleton.1 h)
      · exact Or.inl (Or.inr h)
    · rw [mdAdd_cons, if_neg h1, mdValues_cons, List.mem_append] at h
      rw [mdValues_cons, List.mem_append]
      rcases h with h | h
      · exact Or.inl (Or.inl h)
      · rcases ih h with h2 | h2
        · exact Or.inl (Or.inr h2)
        · exact Or.inr h2

theorem mem_of_mem_mdValues {α : Type} (m : List (String × List α)) (k : String)
    (vs : List α) (h : (k, vs) ∈ m) (w : α) (hw : w ∈ vs) : w ∈ mdValues m := by
  unfold mdValues
  rw [List.mem_flatMap]
  exact ⟨(k, vs), h, hw⟩

/-- Every id stored by the designation-collection loop is the id of some
processed device. -/
theorem designationFold_values (ds : List Device) (cnt : Nat)
    (m : List (String × List Nat)) (w : Nat)
    (h : w ∈ mdValues ((ds.foldl designationStep (cnt, m)).2)) :
    w ∈ mdValues m ∨ ∃ d ∈ ds, d.deviceId = w := by
  induction ds generalizing cnt m with
  | nil => exact Or.inl h
  | cons d rest ih =>
    rw [List.foldl_cons] at h
    unfold designationStep at h
    by_cases hcable : d.isCable = true
    · rw [if_pos hcable] at h
      rcases ih _ _ h with h2 | h2
      · rcases mem_mdValues_mdAdd _ _ _ _ h2 with h3 | h3
        · exact Or.inl h3
        · exact Or.inr ⟨d, List.mem_cons_self _ _, h3.symm⟩
      · obtain ⟨d2, hd2, hid⟩ := h2
        exact Or.inr ⟨d2, List.mem_cons_of_mem _ hd2, hid⟩
    · rw [if_neg hcable] at h
      by_cases hplace : d.sheet ≠ "" ∧ d.grid ≠ "" ∧ d.firstSymbolId ≠ 0
      · rw [if_pos hplace] at h
        rcases ih _ _ h with h2 | h2
        · rcases mem_mdValues_mdAdd _ _ _ _ h2 with h3 | h3
          · exact Or.inl h3
          · exact Or.inr ⟨d, List.mem_cons_self _ _, h3.symm⟩
        · obtain ⟨d2, hd2, hid⟩ := h2
          exact Or.inr ⟨d2, List.mem_cons_of_mem _ hd2, hid⟩
      · rw [if_neg hplace] at h
        rcases ih _ _ h with h2 | h2
        · exact Or.inl h2
        · obtain ⟨d2, hd2, hid⟩ := h2
          exact Or.inr ⟨d2, List.mem_cons_of_mem _ hd2, hid⟩

/-- Every id appearing in the collected designations dict belongs to one
of the processed devices. -/
theorem collect_designations_ids (ds : List Device) (k : String) (ids : List Nat)
    (h : (k, ids) ∈ collect_designations ds) (v : Nat) (hv : v ∈ ids) :
    ∃ d ∈ ds, d.deviceId = v := by
  unfold collect_designations at h
  have hval : v ∈ mdValues ((ds.foldl designationStep (1, [])).2) :=
    mem_of_mem_mdValues _ k ids h v hv
  rcases designationFold_values ds 1 [] v hval with h2 | h2
  · simp [mdValues] at h2
  · exact h2

/-- Claim C7: a device is excluded iff the capability query (when it
succeeds) reports terminal or terminal block; when the query fails, the
device is excluded exactly when its default letter code is one of T, TB,
X, XT, TERM; and an excluded device's id never appears in the output
assignment of `process_devices` (so it is never written). -/
theorem c7_terminal_device_exclusion :
    (∀ (d : Device) (t tb : Bool), d.terminalQuery = some (t, tb) →
      (is_terminal_device d = true ↔ (t = true ∨ tb = true))) ∧
    (∀ d : Device, d.terminalQuery = none →
      (is_terminal_device d = true ↔ d.letterCode ∈ terminal_codes)) ∧
    ∀ (ds : List Device) (d : Device), (ds.map Device.deviceId).Nodup →
      d ∈ ds → is_terminal_device d = true →
      ∀ pr ∈ process_devices ds, pr.1 ≠ d.deviceId := by
  refine ⟨fun d t tb hq => ?_, fun d hq => ?_, ?_⟩
  · unfold is_terminal_device
    rw [hq]
    simp
  · unfold is_terminal_device
    rw [hq]
    exact List.elem_iff
  · intro ds d hnd hd hterm pr hpr heq
    unfold process_devices assign_suffix_for_conflicts at hpr
    rw [List.mem_flatMap] at hpr
    obtain ⟨g, hg, hprg⟩ := hpr
    have hid := mem_ids_of_group_final_designations g.1 g.2 pr hprg
    obtain ⟨d2, hd2f, hd2id⟩ :=
      collect_designations_ids (ds.filter fun d => !is_terminal_device d) g.1 g.2
        (by
          obtain ⟨g1, g2⟩ := g
          exact hg) pr.1 hid
    have hd2mem := (List.mem_filter.1 hd2f).1
    have hd2nt := (List.mem_filter.1 hd2f).2
    have hdd : d2 = d :=
      List.inj_on_of_nodup_map hnd hd2mem hd (by rw [hd2id, heq])
    rw [hdd, hterm] at hd2nt
    exact absurd hd2nt (by simp)

/-- Claim C7 witness: applied to a terminal device (capability query
reports a terminal) next to a plain device — no assignment entry carries
the terminal's id. -/
theorem c7_witness :
    ∀ pr ∈ process_devices
      [⟨1, some (true, false), "K", false, "1", "A1", 7⟩,
       ⟨2, some (false, false), "M", false, "1", "B2", 8⟩],
      pr.1 ≠ (⟨1, some (true, false), "K", false, "1", "A1", 7⟩ : Device).deviceId :=
  c7_terminal_device_exclusion.2.2
    [⟨1, some (true, false), "K", false, "1", "A1", 7⟩,
     ⟨2, some (false, false), "M", false, "1", "B2", 8⟩]
    ⟨1, some (true, false), "K", false, "1", "A1", 7⟩
    (by decide) (by decide) (by decide)

end E3

